import Mathlib

/-!
Verification development for the p2pchat repository (Go, package layout
`p2pchat/...`).  The Go source is shallowly embedded: pure functions become
Lean functions, stateful code becomes explicit state passing, Go `time.Time`
and `time.Duration` values become `Int` nanosecond counts, Go maps become
association/key lists, and Go `nil` pointers become `Option`.

The repository requires Go 1.21 (Makefile `GO_VERSION = 1.21`, README), so the
library call `sort.Slice` in `MessageHistory.AddMessage` is embedded as the Go
1.21 implementation of `sort.Slice`: `pdqsort_func` from `sort/zsortfunc.go`
together with all of its helpers (insertion sort, heap sort, partitioning,
pattern breaking, pivot choice).  That level of detail matters because the
specification asserts stability of the sort, and `sort.Slice` is not stable.
-/

namespace P2PChat

/-! ## Chat message model (pkg/chat/chatmessage.go) -/

/-- `MessageType` from chatmessage.go: `type MessageType string`. -/
abbrev MessageType := String

def MessageTypeChat : MessageType := "chat"

def MessageTypeJoin : MessageType := "join"

def MessageTypeLeave : MessageType := "leave"

def MessageTypeHeartbeat : MessageType := "heartbeat"

/-- The chat envelope `Message` from chatmessage.go.  `Timestamp` is the
`time.Time` field as nanoseconds since epoch; `Metadata` is omitted (never
read by the embedded code paths). -/
structure Message where
  ID : String
  Typ : MessageType  -- Go field `Type` (a Lean keyword)
  SenderID : String
  Username : String
  Content : String
  Timestamp : Int
  Sequence : Nat
  RoomID : String
deriving DecidableEq, Repr, Inhabited

/-- `IsValidMessageType` from chatmessage.go. -/
def IsValidMessageType (msgType : MessageType) : Bool :=
  msgType = MessageTypeChat ∨ msgType = MessageTypeJoin ∨
    msgType = MessageTypeLeave ∨ msgType = MessageTypeHeartbeat

/-- `FromJSON` from chatmessage.go.  The `json.Unmarshal` library call is
represented by the argument: `none` is an unmarshal failure, `some msg` is a
successful parse into the struct (fields absent from the JSON are left at
their zero value `""`, exactly as `encoding/json` leaves them).  The three
required-field checks are translated verbatim. -/
def FromJSON (data : Option Message) : Except String Message :=
  match data with
  | none => .error "failed to unmarshal message"
  | some msg =>
    if msg.ID = "" then .error "message missing required ID field"
    else if msg.SenderID = "" then .error "message missing required sender_id field"
    else if msg.Typ = "" then .error "message missing required type field"
    else .ok msg

/-! ## Go 1.21 `sort.Slice` (src/sort/zsortfunc.go), generic in the
comparator, acting on a `List α` viewed as the underlying array.  All element
moves go through `lswap`. -/

/-- `data.Swap(i, j)`: swap the elements at positions `i` and `j`.  Out of
bounds indices leave the list unchanged (they never occur in the verified
runs). -/
def lswap (l : List α) (i j : Nat) : List α :=
  match l.get? i, l.get? j with
  | some vi, some vj => (l.set i vj).set j vi
  | _, _ => l

/-- `data.Less(i, j)` on the list representation, with a default for
out-of-bounds reads. -/
def lless [Inhabited α] (less : α → α → Bool) (l : List α) (i j : Nat) : Bool :=
  less (l.getD i default) (l.getD j default)

/-- Inner loop of `insertionSort_func`:
`for j := i; j > a && data.Less(j, j-1); j-- { data.Swap(j, j-1) }`. -/
def bubbleIdx [Inhabited α] (less : α → α → Bool) (a : Nat) : List α → Nat → List α
  | l, 0 => l
  | l, j + 1 =>
    if a < j + 1 ∧ lless less l (j + 1) j then
      bubbleIdx less a (lswap l (j + 1) j) j
    else l

/-- Outer loop of `insertionSort_func`; `cnt` counts the remaining values of
`i`, starting at `b - (a+1)`. -/
def insSortLoop [Inhabited α] (less : α → α → Bool) (a : Nat) : Nat → Nat → List α → List α
  | 0, _, l => l
  | cnt + 1, i, l => insSortLoop less a cnt (i + 1) (bubbleIdx less a l i)

/-- `insertionSort_func(data, a, b)` from zsortfunc.go. -/
def insertionSortGo [Inhabited α] (less : α → α → Bool) (a b : Nat) (l : List α) : List α :=
  insSortLoop less a (b - (a + 1)) (a + 1) l

/-- The child selection of one `siftDown_func` iteration:
`child := 2*root + 1`, bumped to `child+1` when that sibling exists and is
greater. -/
def siftChild [Inhabited α] (less : α → α → Bool) (hi first : Nat) (l : List α)
    (root : Nat) : Nat :=
  if 2 * root + 1 + 1 < hi ∧ lless less l (first + (2 * root + 1)) (first + (2 * root + 1) + 1)
  then 2 * root + 1 + 1 else 2 * root + 1

/-- The `for {}` loop of `siftDown_func`, with `root` the loop variable.
`fuel` bounds the iteration count; `root` strictly increases towards `hi`
each iteration, so the `hi + 1` supplied by `siftDownGo` is never
exhausted. -/
def siftDownLoop [Inhabited α] (less : α → α → Bool) (hi first : Nat) :
    Nat → Nat → List α → List α
  | 0, _, l => l
  | fuel + 1, root, l =>
    if 2 * root + 1 < hi then
      if lless less l (first + root) (first + siftChild less hi first l root) then
        siftDownLoop less hi first fuel (siftChild less hi first l root)
          (lswap l (first + root) (first + siftChild less hi first l root))
      else l
    else l

/-- `siftDown_func(data, lo, hi, first)` from zsortfunc.go. -/
def siftDownGo [Inhabited α] (less : α → α → Bool) (hi first lo : Nat) (l : List α) : List α :=
  siftDownLoop less hi first (hi + 1) lo l

/-- Heap-building loop of `heapSort_func`: `for i := (hi-1)/2; i >= 0; i--`;
`cnt` is `i + 1`. -/
def heapBuild [Inhabited α] (less : α → α → Bool) (first hi : Nat) : Nat → List α → List α
  | 0, l => l
  | n + 1, l => heapBuild less first hi n (siftDownGo less hi first n l)

/-- Pop loop of `heapSort_func`: `for i := hi-1; i >= 0; i--`; `cnt` is `i + 1`. -/
def heapPop [Inhabited α] (less : α → α → Bool) (first : Nat) : Nat → List α → List α
  | 0, l => l
  | i + 1, l => heapPop less first i (siftDownGo less i first 0 (lswap l first (first + i)))

/-- `heapSort_func(data, a, b)` from zsortfunc.go. -/
def heapSortGo [Inhabited α] (less : α → α → Bool) (a b : Nat) (l : List α) : List α :=
  heapPop less a (b - a) (heapBuild less a (b - a) ((b - a - 1) / 2 + 1) l)

/-- The `for i < j` loop of `reverseRange_func`; `fuel` bounds the iteration
count (each iteration shrinks `j - i` by two, so the `b` supplied by
`reverseRangeGo` is never exhausted). -/
def revRangeLoop : Nat → List α → Nat → Nat → List α
  | 0, l, _, _ => l
  | fuel + 1, l, i, j =>
    if i < j then revRangeLoop fuel (lswap l i j) (i + 1) (j - 1) else l

/-- `reverseRange_func(data, a, b)` from zsortfunc.go: `i := a; j := b - 1`. -/
def reverseRangeGo (l : List α) (a b : Nat) : List α :=
  revRangeLoop b l a (b - 1)

/-- Scan `for i <= j && data.Less(i, a) { i++ }` inside `partition_func`. -/
def pScanI [Inhabited α] (less : α → α → Bool) (l : List α) (aIdx : Nat) :
    Nat → Nat → Nat → Nat
  | 0, i, _ => i
  | fuel + 1, i, j => if i ≤ j ∧ lless less l i aIdx then pScanI less l aIdx fuel (i + 1) j else i

/-- Scan `for i <= j && !data.Less(j, a) { j-- }` inside `partition_func`. -/
def pScanJ [Inhabited α] (less : α → α → Bool) (l : List α) (aIdx : Nat) :
    Nat → Nat → Nat → Nat
  | 0, _, j => j
  | fuel + 1, i, j => if i ≤ j ∧ ¬ lless less l j aIdx then pScanJ less l aIdx fuel i (j - 1) else j

/-- The `for {}` loop of `partition_func`; returns the list and the final `j`. -/
def pLoop [Inhabited α] (less : α → α → Bool) (aIdx fs : Nat) :
    Nat → List α → Nat → Nat → (List α × Nat)
  | 0, l, _, j => (l, j)
  | fuel + 1, l, i, j =>
    let i1 := pScanI less l aIdx fs i j
    let j1 := pScanJ less l aIdx fs i1 j
    if i1 > j1 then (l, j1)
    else pLoop less aIdx fs fuel (lswap l i1 j1) (i1 + 1) (j1 - 1)

/-- `partition_func(data, a, b, pivot)` from zsortfunc.go; returns the list,
`newpivot`, and `alreadyPartitioned`. -/
def partitionGo [Inhabited α] (less : α → α → Bool) (a b pivot : Nat) (l : List α) :
    List α × Nat × Bool :=
  let l0 := lswap l a pivot
  let i1 := pScanI less l0 a b (a + 1) (b - 1)
  let j1 := pScanJ less l0 a b i1 (b - 1)
  if i1 > j1 then (lswap l0 j1 a, j1, true)
  else
    let step := pLoop less a b b (lswap l0 i1 j1) (i1 + 1) (j1 - 1)
    (lswap step.1 step.2 a, step.2, false)

/-- Scan `for i <= j && !data.Less(a, i) { i++ }` inside `partitionEqual_func`. -/
def peScanI [Inhabited α] (less : α → α → Bool) (l : List α) (aIdx : Nat) :
    Nat → Nat → Nat → Nat
  | 0, i, _ => i
  | fuel + 1, i, j => if i ≤ j ∧ ¬ lless less l aIdx i then peScanI less l aIdx fuel (i + 1) j else i

/-- Scan `for i <= j && data.Less(a, j) { j-- }` inside `partitionEqual_func`. -/
def peScanJ [Inhabited α] (less : α → α → Bool) (l : List α) (aIdx : Nat) :
    Nat → Nat → Nat → Nat
  | 0, _, j => j
  | fuel + 1, i, j => if i ≤ j ∧ lless less l aIdx j then peScanJ less l aIdx fuel i (j - 1) else j

/-- The `for {}` loop of `partitionEqual_func`; returns the list and the final `i`. -/
def peLoop [Inhabited α] (less : α → α → Bool) (aIdx fs : Nat) :
    Nat → List α → Nat → Nat → (List α × Nat)
  | 0, l, i, _ => (l, i)
  | fuel + 1, l, i, j =>
    let i1 := peScanI less l aIdx fs i j
    let j1 := peScanJ less l aIdx fs i1 j
    if i1 > j1 then (l, i1)
    else peLoop less aIdx fs fuel (lswap l i1 j1) (i1 + 1) (j1 - 1)

/-- `partitionEqual_func(data, a, b, pivot)` from zsortfunc.go; returns the
list and `newpivot`. -/
def partitionEqualGo [Inhabited α] (less : α → α → Bool) (a b pivot : Nat) (l : List α) :
    List α × Nat :=
  peLoop less a b b (lswap l a pivot) (a + 1) (b - 1)

/-- Scan `for i < b && !data.Less(i, i-1) { i++ }` in `partialInsertionSort_func`. -/
def pisScan [Inhabited α] (less : α → α → Bool) (b : Nat) :
    Nat → List α → Nat → Nat
  | 0, _, i => i
  | fuel + 1, l, i => if i < b ∧ ¬ lless less l i (i - 1) then pisScan less b fuel l (i + 1) else i

/-- Left shift loop `for j := i - 1; j >= 1; j--` in `partialInsertionSort_func`. -/
def shiftLeftGo [Inhabited α] (less : α → α → Bool) : Nat → List α → List α
  | 0, l => l
  | j + 1, l =>
    if ¬ lless less l (j + 1) j then l else shiftLeftGo less j (lswap l (j + 1) j)

/-- Right shift loop `for j := i + 1; j < b; j++` in `partialInsertionSort_func`. -/
def shiftRightGo [Inhabited α] (less : α → α → Bool) (b : Nat) :
    Nat → List α → Nat → List α
  | 0, l, _ => l
  | fuel + 1, l, j =>
    if j < b then
      if ¬ lless less l j (j - 1) then l else shiftRightGo less b fuel (lswap l j (j - 1)) (j + 1)
    else l

/-- Main loop of `partialInsertionSort_func` (`maxSteps = 5`,
`shortestShifting = 50`); returns the list and the boolean result. -/
def pisLoop [Inhabited α] (less : α → α → Bool) (a b : Nat) :
    Nat → List α → Nat → (List α × Bool)
  | 0, l, _ => (l, false)
  | step + 1, l, i =>
    let i1 := pisScan less b b l i
    if i1 = b then (l, true)
    else if b - a < 50 then (l, false)
    else
      let l1 := lswap l i1 (i1 - 1)
      let l2 := if i1 - a ≥ 2 then shiftLeftGo less (i1 - 1) l1 else l1
      let l3 := if b - i1 ≥ 2 then shiftRightGo less b b l2 (i1 + 1) else l2
      pisLoop less a b step l3 i1

/-- `partialInsertionSort_func(data, a, b)` from zsortfunc.go. -/
def partInsSortGo [Inhabited α] (less : α → α → Bool) (a b : Nat) (l : List α) :
    List α × Bool :=
  pisLoop less a b 5 l (a + 1)

/-- `bits.Len` on `uint`. -/
def bitsLen (n : Nat) : Nat := if n = 0 then 0 else n.log2 + 1

/-- `nextPowerOfTwo` from zsortfunc.go: `1 << bits.Len(uint(length))`. -/
def nextPowerOfTwo (length : Nat) : Nat := 1 <<< bitsLen length

/-- `xorshift.Next` from zsortfunc.go, on the `uint64` state:
`*r ^= *r << 13; *r ^= *r >> 17; *r ^= *r << 5`. -/
def xorshiftNext (r : Nat) : Nat :=
  let r1 := (r ^^^ (r <<< 13)) % 2 ^ 64
  let r2 := r1 ^^^ (r1 >>> 17)
  (r2 ^^^ (r2 <<< 5)) % 2 ^ 64

/-- One swap step of `breakPatterns_func`: draws the next xorshift value,
reduces it modulo the slice boundaries and swaps.  Returns the new list and
the advanced generator state. -/
def breakPatternsStep (l : List α) (a length modulus idx i r : Nat) : List α × Nat :=
  let r1 := xorshiftNext r
  let other0 := r1 &&& (modulus - 1)
  let other1 := if other0 ≥ length then other0 - length else other0
  (lswap l (idx - 1 + i) (a + other1), r1)

/-- `breakPatterns_func(data, a, b)` from zsortfunc.go, with the `for i := 0;
i < 3; i++` loop unrolled. -/
def breakPatternsGo (l : List α) (a b : Nat) : List α :=
  let length := b - a
  if length ≥ 8 then
    let modulus := nextPowerOfTwo length
    let idx := a + (length / 4) * 2 - 1
    let s0 := breakPatternsStep l a length modulus idx 0 length
    let s1 := breakPatternsStep s0.1 a length modulus idx 1 s0.2
    let s2 := breakPatternsStep s1.1 a length modulus idx 2 s1.2
    s2.1
  else l

/-- `sortedHint` from zsortfunc.go. -/
inductive Hint where
  | unknown
  | increasing
  | decreasing
deriving DecidableEq, Repr

/-- `order2_func(data, a, b, &swaps)` from zsortfunc.go. -/
def order2Go [Inhabited α] (less : α → α → Bool) (l : List α) (a b swaps : Nat) :
    Nat × Nat × Nat :=
  if lless less l b a then (b, a, swaps + 1) else (a, b, swaps)

/-- `median_func(data, a, b, c, &swaps)` from zsortfunc.go; returns the median
index and the updated swap count. -/
def medianGo [Inhabited α] (less : α → α → Bool) (l : List α) (a b c swaps : Nat) :
    Nat × Nat :=
  let s1 := order2Go less l a b swaps
  let s2 := order2Go less l s1.2.1 c s1.2.2
  let s3 := order2Go less l s1.1 s2.1 s2.2.2
  (s3.2.1, s3.2.2)

/-- `medianAdjacent_func(data, a, &swaps)` from zsortfunc.go. -/
def medianAdjacentGo [Inhabited α] (less : α → α → Bool) (l : List α) (a swaps : Nat) :
    Nat × Nat :=
  medianGo less l (a - 1) a (a + 1) swaps

/-- `choosePivot_func(data, a, b)` from zsortfunc.go (`shortestNinther = 50`,
`maxSwaps = 12`). -/
def choosePivotGo [Inhabited α] (less : α → α → Bool) (l : List α) (a b : Nat) :
    Nat × Hint :=
  let len := b - a
  let i0 := a + (len / 4) * 1
  let j0 := a + (len / 4) * 2
  let k0 := a + (len / 4) * 3
  if len ≥ 8 then
    let t :=
      if len ≥ 50 then
        let si := medianAdjacentGo less l i0 0
        let sj := medianAdjacentGo less l j0 si.2
        let sk := medianAdjacentGo less l k0 sj.2
        (si.1, sj.1, sk.1, sk.2)
      else (i0, j0, k0, 0)
    let m := medianGo less l t.1 t.2.1 t.2.2.1 t.2.2.2
    if m.2 = 0 then (m.1, Hint.increasing)
    else if m.2 = 12 then (m.1, Hint.decreasing)
    else (m.1, Hint.unknown)
  else
    (j0, Hint.increasing)

/-- The pattern-breaking stage of one `pdqsort_func` iteration:
`if !wasBalanced { breakPatterns_func(data, a, b); limit-- }`; returns the
(possibly) modified data and the new `limit`. -/
def pdqBP (l : List α) (a b limit : Nat) (wasBalanced : Bool) : List α × Nat :=
  if ¬ wasBalanced then (breakPatternsGo l a b, limit - 1) else (l, limit)

/-- The reversal stage of one `pdqsort_func` iteration:
`if hint == decreasingHint { reverseRange_func(data, a, b); pivot = (b-1) -
(pivot-a); hint = increasingHint }`. -/
def pdqRev (l : List α) (a b : Nat) (cp : Nat × Hint) : List α × Nat × Hint :=
  if cp.2 = Hint.decreasing then
    (reverseRangeGo l a b, (b - 1) - (cp.1 - a), Hint.increasing)
  else (l, cp.1, cp.2)

/-- The likely-sorted stage of one `pdqsort_func` iteration:
`if wasBalanced && wasPartitioned && hint == increasingHint {
partialInsertionSort_func... }`; the boolean is whether pdqsort returns. -/
def pdqPIS [Inhabited α] (less : α → α → Bool) (a b : Nat)
    (wasBalanced wasPartitioned : Bool) (hint : Hint) (l : List α) : List α × Bool :=
  if wasBalanced ∧ wasPartitioned ∧ hint = Hint.increasing then
    partInsSortGo less a b l
  else (l, false)

/-- `pdqsort_func(data, a, b, limit)` from zsortfunc.go.  The Go `for {}`
loop with its local `wasBalanced` / `wasPartitioned` variables is modelled by
passing the current loop state explicitly; a loop `continue` re-invokes with
the updated flags, and the recursive call re-invokes with both flags `true`
(their initial values).  `fuel` bounds the number of loop iterations plus
recursive calls; every such step shrinks `b - a` by at least one, so the
entry fuel `length + 1` is never exhausted. -/
def pdqsortGo [Inhabited α] (less : α → α → Bool) :
    Nat → List α → Nat → Nat → Nat → Bool → Bool → List α
  | 0, l, _, _, _, _, _ => l
  | fuel + 1, l, a, b, limit, wasBalanced, wasPartitioned =>
    if b - a ≤ 12 then insertionSortGo less a b l
    else if limit = 0 then heapSortGo less a b l
    else
      let bp := pdqBP l a b limit wasBalanced
      let rv := pdqRev bp.1 a b (choosePivotGo less bp.1 a b)
      let pis := pdqPIS less a b wasBalanced wasPartitioned rv.2.2 rv.1
      if pis.2 then pis.1
      else if a > 0 ∧ ¬ lless less pis.1 (a - 1) rv.2.1 then
        pdqsortGo less fuel (partitionEqualGo less a b rv.2.1 pis.1).1
          (partitionEqualGo less a b rv.2.1 pis.1).2 b bp.2 wasBalanced wasPartitioned
      else
        let pt := partitionGo less a b rv.2.1 pis.1
        let wasBalanced1 := decide (min (pt.2.1 - a) (b - pt.2.1) ≥ (b - a) / 8)
        if pt.2.1 - a < b - pt.2.1 then
          pdqsortGo less fuel (pdqsortGo less fuel pt.1 a pt.2.1 bp.2 true true)
            (pt.2.1 + 1) b bp.2 wasBalanced1 pt.2.2
        else
          pdqsortGo less fuel (pdqsortGo less fuel pt.1 (pt.2.1 + 1) b bp.2 true true)
            a pt.2.1 bp.2 wasBalanced1 pt.2.2

/-- `sort.Slice(x, less)` from Go 1.21 `sort/slice.go`:
`limit := bits.Len(uint(length)); pdqsort_func(lessSwap{less, swap}, 0, length, limit)`. -/
def sortSliceGo [Inhabited α] (less : α → α → Bool) (l : List α) : List α :=
  pdqsortGo less (l.length + 1) l 0 l.length (bitsLen l.length) true true

/-! ## Message history (the `MessageHistory` file, src/unnamed/part_008)

The Go `map[string]bool` set of seen ids is modelled by its list of keys:
assigning `m[k] = true` appends `k` when absent (and is a no-op when present,
since the stored value is always `true`), `delete(m, k)` removes it, and a
lookup is list membership. -/

structure MessageHistory where
  messages : List Message
  messageIDs : List String
  maxMessages : Nat
deriving DecidableEq, Repr

/-- `m[k] = true` on the key-list model of `map[string]bool`. -/
def mapInsert (s : List String) (k : String) : List String :=
  if s.contains k then s else s ++ [k]

/-- `delete(m, k)` on the key-list model. -/
def mapDelete (s : List String) (k : String) : List String :=
  s.erase k

/-- `NewMessageHistory` from part_008 (`maxMessages <= 0` falls back to 1000). -/
def NewMessageHistory (maxMessages : Int) : MessageHistory :=
  { messages := [], messageIDs := [],
    maxMessages := if maxMessages ≤ 0 then 1000 else maxMessages.toNat }

/-- The comparator closure passed to `sort.Slice` in `AddMessage`:
`h.messages[i].Timestamp.Before(h.messages[j].Timestamp)`. -/
def msgLess (m1 m2 : Message) : Bool :=
  decide (m1.Timestamp < m2.Timestamp)

/-- The id-deletion loop of `MessageHistory.cleanup`:
`for i := 0; i < excessMessages; i++ { delete(h.messageIDs, h.messages[i].ID) }`;
the argument is `i + 1` for the last executed iteration `i`. -/
def delIDs (ids : List String) (msgs : List Message) : Nat → List String
  | 0 => ids
  | n + 1 => mapDelete (delIDs ids msgs n) ((msgs.getD n default).ID)

/-- `MessageHistory.cleanup` from part_008.  The Go
`copy(h.messages, h.messages[excess:]); h.messages = h.messages[:h.maxMessages]`
shift keeps exactly the last `maxMessages` entries, i.e. drops the first
`excess`. -/
def cleanup (h : MessageHistory) : MessageHistory :=
  if h.messages.length ≤ h.maxMessages then h
  else
    let excess := h.messages.length - h.maxMessages
    { h with
      messageIDs := delIDs h.messageIDs h.messages excess,
      messages := h.messages.drop excess }

/-- `MessageHistory.AddMessage` from part_008.  The `*Message` argument is an
`Option` (`none` is the Go `nil`).  Checks happen in source order: nil, then
duplicate id, then heartbeat; on success the message is appended, its id
recorded, the sequence sorted with `sort.Slice`, and `cleanup` applied. -/
def AddMessage (h : MessageHistory) (msg : Option Message) : Bool × MessageHistory :=
  match msg with
  | none => (false, h)
  | some m =>
    if h.messageIDs.contains m.ID then (false, h)
    else if m.Typ = MessageTypeHeartbeat then (false, h)
    else
      let h1 := { h with
        messages := sortSliceGo msgLess (h.messages ++ [m]),
        messageIDs := mapInsert h.messageIDs m.ID }
      (true, cleanup h1)

/-- `MessageHistory.Clear` from part_008. -/
def Clear (h : MessageHistory) : MessageHistory :=
  { h with messages := [], messageIDs := [] }

/-- `MessageHistory.GetMessages()` (no type filter) from part_008: returns a
copy of the stored sequence. -/
def GetMessages (h : MessageHistory) : List Message :=
  h.messages

/-- `MessageHistory.GetRecentMessages` from part_008. -/
def GetRecentMessages (h : MessageHistory) (limit : Int) : List Message :=
  let totalMessages := h.messages.length
  if limit ≤ 0 ∨ limit ≥ totalMessages then h.messages
  else h.messages.drop (totalMessages - limit.toNat)

/-- `MessageHistory.GetMessageCount` from part_008. -/
def GetMessageCount (h : MessageHistory) : Nat :=
  h.messages.length

/-- `MessageHistory.HasMessage` from part_008. -/
def HasMessage (h : MessageHistory) (messageID : String) : Bool :=
  h.messageIDs.contains messageID

/-- History states reachable from a constructor call by the mutating
operations `AddMessage` and `Clear` (the read operations `GetMessages`,
`GetRecentMessages`, `GetMessageCount`, `HasMessage`, `GetStats` do not
change the state). -/
inductive ReachableHistory : MessageHistory → Prop where
  | new (maxMessages : Int) : ReachableHistory (NewMessageHistory maxMessages)
  | add (h : MessageHistory) (msg : Option Message) :
      ReachableHistory h → ReachableHistory (AddMessage h msg).2
  | clear (h : MessageHistory) :
      ReachableHistory h → ReachableHistory (Clear h)

/-- Fold a list of messages into the history, tracking whether every
`AddMessage` call returned `true`. -/
def addAllAcc (h : MessageHistory) (msgs : List Message) : Bool × MessageHistory :=
  msgs.foldl (fun p m =>
    let r := AddMessage p.2 (some m)
    (p.1 && r.1, r.2)) (true, h)

/-- Non-decreasing timestamps along the stored sequence. -/
def TsSorted (l : List Message) : Prop :=
  l.Pairwise (fun m1 m2 => m1.Timestamp ≤ m2.Timestamp)

/-- Ties keep insertion order: for every timestamp occurring in `stored`, the
entries carrying it appear in exactly the order in which they were inserted
(`inserted` lists the insertion order of all stored entries). -/
def StableWrtInsertion (inserted stored : List Message) : Prop :=
  ∀ t ∈ stored.map Message.Timestamp,
    stored.filter (fun m => m.Timestamp = t) = inserted.filter (fun m => m.Timestamp = t)

instance : DecidablePred (TsSorted) := fun l =>
  inferInstanceAs (Decidable (l.Pairwise _))

instance (inserted stored : List Message) :
    Decidable (StableWrtInsertion inserted stored) :=
  inferInstanceAs (Decidable (∀ t ∈ _, _))

/-- A chat message with the given id and timestamp, as built by the test
driver for `AddMessage` (all required fields populated). -/
def mkMsg (id : String) (ts : Int) : Message :=
  { ID := id, Typ := MessageTypeChat, SenderID := "s", Username := "u",
    Content := "", Timestamp := ts, Sequence := 0, RoomID := "general" }

/-- Thirteen fresh chat messages in insertion order: twelve with
non-decreasing timestamps followed by one whose timestamp falls in the middle.
The thirteenth insert makes `sort.Slice` leave its insertion-sort regime. -/
def cexMsgs : List Message :=
  [mkMsg "a" 0, mkMsg "b" 2, mkMsg "c" 4, mkMsg "d" 6, mkMsg "e" 8,
   mkMsg "f" 10, mkMsg "g" 12, mkMsg "h" 14, mkMsg "i" 14, mkMsg "j" 14,
   mkMsg "k" 14, mkMsg "l" 14, mkMsg "m" 5]

/-- A heartbeat envelope (as produced by `NewHeartbeatMessage`): required
fields populated, type `heartbeat`. -/
def hbMsg : Message :=
  { ID := "hb1", Typ := MessageTypeHeartbeat, SenderID := "s", Username := "u",
    Content := "", Timestamp := 0, Sequence := 0, RoomID := "general" }

/-- Functional view of one pass of the `insertionSort_func` inner loop: the
new element sinks from the right to sit just before the first strictly
smaller-timestamp successor, i.e. after every element whose timestamp is not
strictly greater.  Used to state what the swap-based loop computes. -/
def insR (x : Message) : List Message → List Message
  | [] => [x]
  | b :: l => if msgLess x b then x :: b :: l else b :: insR x l

/-- Functional view of the whole insertion sort: fold the input from the left,
sinking each element into the sorted prefix. -/
def insFun (l : List Message) : List Message :=
  l.foldl (fun acc x => insR x acc) []

/-! ## Go string order and the connection manager (pkg/chat/communication.go) -/

/-- Bytewise comparison of two character lists by code point. -/
def charListLt : List Char → List Char → Bool
  | [], [] => false
  | [], _ :: _ => true
  | _ :: _, [] => false
  | a :: as, b :: bs =>
    if a.val < b.val then true
    else if b.val < a.val then false
    else charListLt as bs

/-- Go `<` on strings compares the UTF-8 bytes lexicographically; on valid
UTF-8 that order coincides with lexicographic order of the code points. -/
def goStrLt (a b : String) : Bool :=
  charListLt a.toList b.toList

/-- `ConnectionState` from communication.go. -/
inductive ConnectionState where
  | Disconnected
  | Connecting
  | Connected
  | Failed
deriving DecidableEq, Repr, Inhabited

/-- `PeerConnection` from communication.go.  `ConnSome` is whether the `Conn`
socket handle is non-nil; `Address` is the rendered TCP address; the send
queue and contexts are omitted (never read by the embedded paths). -/
structure PeerConnection where
  PeerID : String
  Username : String
  Address : String
  ConnSome : Bool
  State : ConnectionState
  LastSeen : Int
  LastAttempt : Int
  RetryCount : Nat
deriving DecidableEq, Repr, Inhabited

/-- The connection-manager state: identity plus the
`connections map[string]*PeerConnection` map, modelled as a list keyed by
`PeerID`. -/
structure ConnectionManager where
  localPeerID : String
  localUsername : String
  localPort : Nat
  connections : List PeerConnection
deriving DecidableEq, Repr

/-- `cm.connections[id]` on the list model. -/
def connLookup (cm : ConnectionManager) (id : String) : Option PeerConnection :=
  cm.connections.find? (fun c => c.PeerID = id)

/-- `cm.connections[id] = pc`: replace the entry with that key, or append. -/
def connStore (cm : ConnectionManager) (pc : PeerConnection) : ConnectionManager :=
  if (cm.connections.find? (fun c => c.PeerID = pc.PeerID)).isSome then
    { cm with connections :=
        cm.connections.map (fun c => if c.PeerID = pc.PeerID then pc else c) }
  else
    { cm with connections := cm.connections ++ [pc] }

/-- `ConnectionManager.handleIncomingConnection` from communication.go, up to
the point where the per-peer tasks are spawned.  `firstLine` is the result of
`json.Unmarshal` on the first newline-terminated line (`none` covers both a
read error and a parse error — each makes the function close the socket and
return).  Returns the new state and whether a connection entry was
created/updated for the peer.  Note that the raw `json.Unmarshal` is used
here, not `FromJSON`: no required-field validation happens, and the entry is
keyed by `msg.SenderID` even when that field is empty. -/
def handleIncomingConnection (cm : ConnectionManager) (firstLine : Option Message)
    (now : Int) (remoteAddr : String) : ConnectionManager × Bool :=
  match firstLine with
  | none => (cm, false)
  | some msg =>
    match connLookup cm msg.SenderID with
    | some existing =>
      (connStore cm { existing with
        ConnSome := true, State := .Connected, LastSeen := now, Address := remoteAddr }, true)
    | none =>
      (connStore cm {
        PeerID := msg.SenderID, Username := msg.Username, Address := remoteAddr,
        ConnSome := true, State := .Connected, LastSeen := now,
        LastAttempt := 0, RetryCount := 0 }, true)

/-- One iteration of the read loop `ConnectionManager.handlePeerMessages`:
a line has been read and `json.Unmarshal`-ed into `line` (`none` = parse
error); the message is passed through `FromJSON`, and on any error it is
dropped (`continue`) — the returned value is what reaches the
`messageHandler` callback. -/
def handlePeerMessagesStep (line : Option Message) : Option Message :=
  match FromJSON line with
  | .error _ => none
  | .ok msg => some msg

/-- `ConnectionManager.attemptConnection` from communication.go.  The effects
of `net.DialTimeout` and of writing/flushing the identification line are
modelled by the booleans `dialOk` and `writeOk` (the two write failure points
have identical state effects).  Returns the updated entry and whether an
error was returned. -/
def attemptConnection (pc : PeerConnection) (dialOk writeOk : Bool) (now : Int) :
    PeerConnection × Bool :=
  let pc1 := { pc with State := ConnectionState.Connecting, LastAttempt := now }
  if ¬ dialOk then
    ({ pc1 with State := .Failed, RetryCount := pc1.RetryCount + 1 }, true)
  else
    let pc2 := { pc1 with ConnSome := true, State := .Connected, LastSeen := now, RetryCount := 0 }
    if ¬ writeOk then ({ pc2 with State := .Failed }, true)
    else (pc2, false)

/-! ## Peer record (internal/peer/peer.go) and registry (pkg/discovery/registry.go) -/

/-- `PeerStatus` from peer.go. -/
inductive PeerStatus where
  | unknown
  | online
  | stale
  | offline
deriving DecidableEq, Repr, Inhabited

/-- `Peer` from peer.go; the `*net.TCPAddr` is its IP and port. -/
structure Peer where
  ID : String
  Username : String
  AddrIP : String
  AddrPort : Nat
  LastSeen : Int
  Status : PeerStatus
deriving DecidableEq, Repr, Inhabited

/-- `Peer.UpdateLastSeen` from peer.go. -/
def UpdateLastSeen (p : Peer) (now : Int) : Peer :=
  { p with LastSeen := now, Status := .online }

/-- `Peer.CheckTimeout` from peer.go. -/
def CheckTimeout (p : Peer) (now staleThreshold offlineThreshold : Int) : Peer :=
  let elapsed := now - p.LastSeen
  if elapsed > offlineThreshold then { p with Status := .offline }
  else if elapsed > staleThreshold then { p with Status := .stale }
  else { p with Status := .online }

/-- `Peer.IsAlive` from peer.go. -/
def IsAlive (p : Peer) : Bool :=
  p.Status = PeerStatus.online ∨ p.Status = PeerStatus.stale

/-- `PeerRegistry` from registry.go: the `peers map[string]*peer.Peer` map
modelled as a list keyed by `ID`; the join/leave callbacks are omitted (their
invocation does not change the registry). -/
structure PeerRegistry where
  peers : List Peer
  staleTimeout : Int
  offlineTimeout : Int
deriving DecidableEq, Repr

/-- `pr.peers[id]` on the list model. -/
def regLookup (r : PeerRegistry) (id : String) : Option Peer :=
  r.peers.find? (fun p => p.ID = id)

/-! ## Discovery envelopes and service (src/unnamed/part_002) -/

/-- `DiscoveryMessage` from the discovery message file. -/
structure DiscoveryMessage where
  Typ : String  -- Go field `Type` (a Lean keyword)
  PeerID : String
  Username : String
  Address : String
  Port : Nat
  Timestamp : Int
  Sequence : Nat
deriving DecidableEq, Repr, Inhabited

/-- `discovery.MessageTypeAnnounce`. -/
def DMessageTypeAnnounce : String := "announce"

/-- `discovery.MessageTypePing`. -/
def DMessageTypePing : String := "ping"

/-- `discovery.MessageTypePong`. -/
def DMessageTypePong : String := "pong"

/-- `discovery.MessageTypeLeave`. -/
def DMessageTypeLeave : String := "leave"

/-- `DiscoveryMessage.IsRecent`: `time.Since(m.Timestamp) <= maxAge`. -/
def IsRecent (m : DiscoveryMessage) (now maxAge : Int) : Bool :=
  decide (now - m.Timestamp ≤ maxAge)

/-- `PeerRegistry.AddOrUpdatePeer` from registry.go.  When the peer exists,
only `UpdateLastSeen` runs on the stored record; when absent, a new record is
inserted with address `(senderAddr.IP, msg.Port)` and status online (the
`onPeerJoin` callback does not change the registry). -/
def AddOrUpdatePeer (r : PeerRegistry) (msg : DiscoveryMessage) (senderIP : String)
    (now : Int) : PeerRegistry :=
  match regLookup r msg.PeerID with
  | some _ =>
    { r with peers := r.peers.map (fun p =>
        if p.ID = msg.PeerID then UpdateLastSeen p now else p) }
  | none =>
    { r with peers := r.peers ++ [{
        ID := msg.PeerID, Username := msg.Username,
        AddrIP := senderIP, AddrPort := msg.Port,
        LastSeen := now, Status := .online }] }

/-- `PeerRegistry.RemovePeer` from registry.go (`delete(pr.peers, peerID)`). -/
def RemovePeer (r : PeerRegistry) (peerID : String) : PeerRegistry :=
  { r with peers := r.peers.filter (fun p => ¬ p.ID = peerID) }

/-- `DiscoveryService.handleDiscoveryMessage` from the discovery service file:
drop own envelopes, drop envelopes older than 30 s, then dispatch on type
(`announce`/`ping` upsert, `leave` removes, `pong` upserts, default ignored). -/
def handleDiscoveryMessage (localPeerID : String) (r : PeerRegistry)
    (msg : DiscoveryMessage) (senderIP : String) (now : Int) : PeerRegistry :=
  if msg.PeerID = localPeerID then r
  else if ¬ IsRecent msg now (30 * 1000000000) then r
  else if msg.Typ = DMessageTypeAnnounce ∨ msg.Typ = DMessageTypePing then
    AddOrUpdatePeer r msg senderIP now
  else if msg.Typ = DMessageTypeLeave then
    RemovePeer r msg.PeerID
  else if msg.Typ = DMessageTypePong then
    AddOrUpdatePeer r msg senderIP now
  else r

/-! ## Dial decision paths (pkg/chat/communication.go) -/

/-- `ConnectionManager.ConnectToPeer` from communication.go, modelling the
dial itself with `dialOk`/`writeOk` as in `attemptConnection`.  Returns the
new state and whether a dial was attempted. -/
def ConnectToPeer (cm : ConnectionManager) (p : Peer) (dialOk writeOk : Bool)
    (now : Int) : ConnectionManager × Bool :=
  let existing := connLookup cm p.ID
  if (match existing with
      | some e => decide (e.State = ConnectionState.Connected ∨ e.State = ConnectionState.Connecting)
      | none => false) then
    (cm, false)
  else if ¬ goStrLt cm.localPeerID p.ID then
    (cm, false)
  else
    let entry := match existing with
      | some e => e
      | none =>
        { PeerID := p.ID, Username := p.Username,
          Address := p.AddrIP ++ ":" ++ toString p.AddrPort,
          ConnSome := false, State := .Disconnected,
          LastSeen := 0, LastAttempt := 0, RetryCount := 0 }
    let cm1 := connStore cm entry
    (connStore cm1 (attemptConnection entry dialOk writeOk now).1, true)

/-- The backoff delay computed in `retryFailedConnections`:
`time.Duration(1<<uint(min(peerConn.RetryCount, 6))) * time.Second`,
in nanoseconds. -/
def backoffDelay (retryCount : Nat) : Int :=
  ((1 <<< min retryCount 6 : Nat) : Int) * 1000000000

/-- `ConnectionManager.retryFailedConnections` from communication.go, reduced
to the entries on which it launches `go cm.attemptConnection(...)`: the first
loop collects failed entries past their backoff
(`time.Since(peerConn.LastAttempt) > backoffDelay`), the second keeps those
the tie-break allows (`cm.localPeerID < peerConn.PeerID`). -/
def retryAttempts (cm : ConnectionManager) (now : Int) : List PeerConnection :=
  let failedPeers := cm.connections.filter (fun c =>
    c.State = ConnectionState.Failed ∧ now - c.LastAttempt > backoffDelay c.RetryCount)
  failedPeers.filter (fun c => goStrLt cm.localPeerID c.PeerID)

/-- The eligibility condition exactly as claim C4 words it:
`now − last_attempt ≥ min(2^retry_count, 64)` seconds, in failed state, with
the tie-break permitting this side to dial. -/
def c4ClaimEligible (cm : ConnectionManager) (now : Int) (c : PeerConnection) : Prop :=
  c.State = ConnectionState.Failed ∧
    now - c.LastAttempt ≥ (min ((2 : Int) ^ c.RetryCount) 64) * 1000000000 ∧
    goStrLt cm.localPeerID c.PeerID = true

/-! ## Chat service (pkg/chat/chatservice.go) -/

/-- The parts of `ChatService` state that `ChangeUsername` touches:
identity, the sequence counter, the history, and the stream of messages
handed to `connections.Broadcast`. -/
structure ChatServiceState where
  peerID : String
  username : String
  messageSequence : Nat
  messageHistory : MessageHistory
  broadcasts : List Message
deriving DecidableEq, Repr

/-- `NewChatMessage` from chatmessage.go; `newID` stands for the value of
`generateMessageID()` (a CSPRNG draw) and `now` for `time.Now()`. -/
def NewChatMessage (senderID username content : String) (sequence : Nat)
    (newID : String) (now : Int) : Message :=
  { ID := newID, Typ := MessageTypeChat, SenderID := senderID,
    Username := username, Content := content, Timestamp := now,
    Sequence := sequence, RoomID := "general" }

/-- `ChatService.ChangeUsername` from chatservice.go.  Validation is exactly
the two checks in the source: empty, and `len(newUsername) > 20` (Go `len` is
the byte length).  On success the username is mutated, a `join`-typed change
notice is broadcast and added to the local history. -/
def ChangeUsername (st : ChatServiceState) (newUsername : String)
    (newID : String) (now : Int) : Except String ChatServiceState :=
  if newUsername = "" then .error "username cannot be empty"
  else if newUsername.utf8ByteSize > 20 then .error "username too long (max 20 characters)"
  else
    let oldUsername := st.username
    let st1 := { st with username := newUsername, messageSequence := st.messageSequence + 1 }
    let changeMsg0 := NewChatMessage st1.peerID st1.username
      (oldUsername ++ " changed their name to " ++ newUsername)
      st1.messageSequence newID now
    let changeMsg := { changeMsg0 with Typ := MessageTypeJoin }
    .ok { st1 with
      broadcasts := st1.broadcasts ++ [changeMsg],
      messageHistory := (AddMessage st1.messageHistory (some changeMsg)).2 }

/-! ## Multicast transport (pkg/discovery/multicast.go) -/

/-- `MaxMessageSize` from multicast.go. -/
def MaxMessageSize : Nat := 1024

/-- The multicast transport state: whether `Start` has set up the socket, and
the datagrams written to the group address so far. -/
structure MulticastState where
  connStarted : Bool
  sentDatagrams : List (List Nat)
deriving DecidableEq, Repr

/-- `MulticastService.Send` from multicast.go.  `data` is the result of
`message.ToJSON()`, the compact JSON serialization of the envelope as a byte
list (`json.Marshal` cannot fail on `DiscoveryMessage`, but `none` models a
marshal error for completeness).  Returns the new transport state and the
returned error, if any; a successful send appends exactly one datagram to
the group address (the UDP write handed to `WriteToUDP` is modelled as
accepted by the OS). -/
def MulticastSend (st : MulticastState) (data : Option (List Nat)) :
    MulticastState × Option String :=
  if ¬ st.connStarted then (st, some "multicast service not started")
  else
    match data with
    | none => (st, some "failed to serialize message")
    | some d =>
      if d.length > MaxMessageSize then (st, some "message too large")
      else ({ st with sentDatagrams := st.sentDatagrams ++ [d] }, none)

/-! ## Concrete fixtures used in counterexamples and witnesses -/

/-- A chat envelope parsed from the JSON text `{}`: valid JSON, so
`json.Unmarshal` succeeds, but every required field is at its zero value. -/
def emptyFieldsMsg : Message :=
  { ID := "", Typ := "", SenderID := "", Username := "", Content := "",
    Timestamp := 0, Sequence := 0, RoomID := "" }

/-- A freshly started connection manager with no entries. -/
def cmEmpty : ConnectionManager :=
  { localPeerID := "alice_1", localUsername := "alice", localPort := 9001,
    connections := [] }

/-- A failed connection entry: first attempt at time 0, no retries yet. -/
def c4conn : PeerConnection :=
  { PeerID := "bob_1", Username := "bob", Address := "127.0.0.1:9002",
    ConnSome := false, State := .Failed, LastSeen := 0, LastAttempt := 0,
    RetryCount := 0 }

/-- A manager that holds exactly the failed entry `c4conn` and whose local id
wins the tie-break. -/
def cm4 : ConnectionManager :=
  { localPeerID := "alice_1", localUsername := "alice", localPort := 9001,
    connections := [c4conn] }

/-- A chat-service state with username `old`. -/
def st0 : ChatServiceState :=
  { peerID := "p1", username := "old", messageSequence := 0,
    messageHistory := NewMessageHistory 1000, broadcasts := [] }

/-- The record stored in `reg1` for `bob_1` (username `bob`, address
`192.168.1.7:9002`). -/
def bobPeer : Peer :=
  { ID := "bob_1", Username := "bob", AddrIP := "192.168.1.7",
    AddrPort := 9002, LastSeen := 0, Status := .online }

/-- A registry holding only `bobPeer`. -/
def reg1 : PeerRegistry :=
  { peers := [bobPeer],
    staleTimeout := 10000000000, offlineTimeout := 30000000000 }

/-- An announce envelope from `bob_1` carrying a different username and TCP
port than the record stored in `reg1`. -/
def dmsgAnn : DiscoveryMessage :=
  { Typ := "announce", PeerID := "bob_1", Username := "robert", Address := "",
    Port := 9777, Timestamp := 0, Sequence := 1 }

/-- A leave envelope from `bob_1`. -/
def dmsgLeave : DiscoveryMessage :=
  { Typ := "leave", PeerID := "bob_1", Username := "bob", Address := "",
    Port := 9002, Timestamp := 0, Sequence := 2 }

/-- A started multicast transport with nothing sent yet. -/
def mst0 : MulticastState :=
  { connStarted := true, sentDatagrams := [] }

/-! ## Invariants used in the theorems -/

/-- The ids carried by a message sequence. -/
def idsOf (l : List Message) : List String :=
  l.map Message.ID

/-- Well-formedness of a history state: the id set matches the stored
sequence, ids are unique, the bound holds, no heartbeat is stored, and the
capacity is positive. -/
def HistoryWF (h : MessageHistory) : Prop :=
  (∀ id, id ∈ idsOf h.messages ↔ id ∈ h.messageIDs) ∧
    (idsOf h.messages).Nodup ∧
    h.messageIDs.Nodup ∧
    h.messages.length ≤ h.maxMessages ∧
    (∀ m ∈ h.messages, m.Typ ≠ MessageTypeHeartbeat) ∧
    1 ≤ h.maxMessages

/-! ## Theorems.  First: every building block of the embedded `sort.Slice`
permutes the list. -/

theorem lswap_nil (i j : Nat) : lswap ([] : List α) i j = [] := by
  simp [lswap]

theorem lswap_cons_succ (a : α) (t : List α) (i j : Nat) :
    lswap (a :: t) (i + 1) (j + 1) = a :: lswap t i j := by
  simp only [lswap, List.get?_cons_succ]
  cases hi : t.get? i <;> cases hj : t.get? j <;> simp [List.set]

theorem getset_cons_perm (a v : α) :
    ∀ (t : List α) (k : Nat), t.get? k = some v → (v :: t.set k a).Perm (a :: t)
  | b :: t', 0, h => by
    simp only [List.get?_cons_zero, Option.some.injEq] at h
    rw [h]
    simpa [List.set] using List.Perm.swap a v t'
  | b :: t', k + 1, h => by
    simp only [List.get?_cons_succ] at h
    have ih := getset_cons_perm a v t' k h
    have e : (b :: t').set (k + 1) a = b :: t'.set k a := by simp [List.set]
    rw [e]
    exact ((List.Perm.swap b v _).trans (ih.cons b)).trans (List.Perm.swap a b t')

theorem lswap_perm : ∀ (l : List α) (i j : Nat), (lswap l i j).Perm l
  | [], i, j => by simp [lswap_nil]
  | a :: t, 0, 0 => by simp [lswap, List.set]
  | a :: t, 0, k + 1 => by
    simp only [lswap, List.get?_cons_zero, List.get?_cons_succ]
    cases h : t.get? k with
    | none => exact List.Perm.refl _
    | some vj =>
      show (((a :: t).set 0 vj).set (k + 1) a).Perm (a :: t)
      have e : ((a :: t).set 0 vj).set (k + 1) a = vj :: t.set k a := by simp [List.set]
      rw [e]
      exact getset_cons_perm a vj t k h
  | a :: t, k + 1, 0 => by
    simp only [lswap, List.get?_cons_zero, List.get?_cons_succ]
    cases h : t.get? k with
    | none => exact List.Perm.refl _
    | some vi =>
      show (((a :: t).set (k + 1) a).set 0 vi).Perm (a :: t)
      have e : ((a :: t).set (k + 1) a).set 0 vi = vi :: t.set k a := by simp [List.set]
      rw [e]
      exact getset_cons_perm a vi t k h
  | a :: t, k + 1, m + 1 => by
    rw [lswap_cons_succ]
    exact (lswap_perm t k m).cons a

theorem lswap_length (l : List α) (i j : Nat) : (lswap l i j).length = l.length :=
  (lswap_perm l i j).length_eq

theorem bubbleIdx_perm [Inhabited α] (less : α → α → Bool) (a : Nat) :
    ∀ (j : Nat) (l : List α), (bubbleIdx less a l j).Perm l
  | 0, l => by simp [bubbleIdx]
  | j + 1, l => by
    rw [bubbleIdx]
    split
    · exact (bubbleIdx_perm less a j _).trans (lswap_perm l (j + 1) j)
    · exact List.Perm.refl l

theorem insSortLoop_perm [Inhabited α] (less : α → α → Bool) (a : Nat) :
    ∀ (cnt i : Nat) (l : List α), (insSortLoop less a cnt i l).Perm l
  | 0, _, l => List.Perm.refl l
  | cnt + 1, i, l => by
    rw [insSortLoop]
    exact (insSortLoop_perm less a cnt (i + 1) _).trans (bubbleIdx_perm less a i l)

theorem insertionSortGo_perm [Inhabited α] (less : α → α → Bool) (a b : Nat) (l : List α) :
    (insertionSortGo less a b l).Perm l :=
  insSortLoop_perm less a (b - (a + 1)) (a + 1) l

theorem siftDownLoop_perm [Inhabited α] (less : α → α → Bool) (hi first : Nat) :
    ∀ (fuel root : Nat) (l : List α), (siftDownLoop less hi first fuel root l).Perm l
  | 0, _, l => List.Perm.refl l
  | fuel + 1, root, l => by
    rw [siftDownLoop]
    split
    · split
      · exact (siftDownLoop_perm less hi first fuel _ _).trans
          (lswap_perm l (first + root) (first + siftChild less hi first l root))
      · exact List.Perm.refl l
    · exact List.Perm.refl l

theorem siftDownGo_perm [Inhabited α] (less : α → α → Bool) (hi first lo : Nat)
    (l : List α) : (siftDownGo less hi first lo l).Perm l :=
  siftDownLoop_perm less hi first (hi + 1) lo l

theorem heapBuild_perm [Inhabited α] (less : α → α → Bool) (first hi : Nat) :
    ∀ (cnt : Nat) (l : List α), (heapBuild less first hi cnt l).Perm l
  | 0, l => List.Perm.refl l
  | n + 1, l => by
    rw [heapBuild]
    exact (heapBuild_perm less first hi n _).trans (siftDownGo_perm less hi first n l)

theorem heapPop_perm [Inhabited α] (less : α → α → Bool) (first : Nat) :
    ∀ (cnt : Nat) (l : List α), (heapPop less first cnt l).Perm l
  | 0, l => List.Perm.refl l
  | i + 1, l => by
    rw [heapPop]
    exact (heapPop_perm less first i _).trans
      ((siftDownGo_perm less i first 0 _).trans (lswap_perm l first (first + i)))

theorem heapSortGo_perm [Inhabited α] (less : α → α → Bool) (a b : Nat) (l : List α) :
    (heapSortGo less a b l).Perm l :=
  (heapPop_perm less a (b - a) _).trans (heapBuild_perm less a (b - a) _ l)

theorem revRangeLoop_perm :
    ∀ (fuel : Nat) (l : List α) (i j : Nat), (revRangeLoop fuel l i j).Perm l
  | 0, l, _, _ => List.Perm.refl l
  | fuel + 1, l, i, j => by
    rw [revRangeLoop]
    split
    · exact (revRangeLoop_perm fuel _ _ _).trans (lswap_perm l i j)
    · exact List.Perm.refl l

theorem reverseRangeGo_perm (l : List α) (a b : Nat) : (reverseRangeGo l a b).Perm l :=
  revRangeLoop_perm b l a (b - 1)

theorem pLoop_perm [Inhabited α] (less : α → α → Bool) (aIdx fs : Nat) :
    ∀ (fuel : Nat) (l : List α) (i j : Nat), (pLoop less aIdx fs fuel l i j).1.Perm l
  | 0, l, _, _ => List.Perm.refl l
  | fuel + 1, l, i, j => by
    rw [pLoop]
    split
    · exact List.Perm.refl l
    · exact (pLoop_perm less aIdx fs fuel _ _ _).trans (lswap_perm l _ _)

theorem partitionGo_perm [Inhabited α] (less : α → α → Bool) (a b pivot : Nat)
    (l : List α) : (partitionGo less a b pivot l).1.Perm l := by
  rw [partitionGo]
  split
  · exact (lswap_perm _ _ _).trans (lswap_perm l a pivot)
  · exact (lswap_perm _ _ _).trans (((pLoop_perm less a b b _ _ _).trans
      (lswap_perm _ _ _)).trans (lswap_perm l a pivot))

theorem peLoop_perm [Inhabited α] (less : α → α → Bool) (aIdx fs : Nat) :
    ∀ (fuel : Nat) (l : List α) (i j : Nat), (peLoop less aIdx fs fuel l i j).1.Perm l
  | 0, l, _, _ => List.Perm.refl l
  | fuel + 1, l, i, j => by
    rw [peLoop]
    split
    · exact List.Perm.refl l
    · exact (peLoop_perm less aIdx fs fuel _ _ _).trans (lswap_perm l _ _)

theorem partitionEqualGo_perm [Inhabited α] (less : α → α → Bool) (a b pivot : Nat)
    (l : List α) : (partitionEqualGo less a b pivot l).1.Perm l :=
  (peLoop_perm less a b b _ _ _).trans (lswap_perm l a pivot)

theorem shiftLeftGo_perm [Inhabited α] (less : α → α → Bool) :
    ∀ (j : Nat) (l : List α), (shiftLeftGo less j l).Perm l
  | 0, l => List.Perm.refl l
  | j + 1, l => by
    rw [shiftLeftGo]
    split
    · exact List.Perm.refl l
    · exact (shiftLeftGo_perm less j _).trans (lswap_perm l _ _)

theorem shiftRightGo_perm [Inhabited α] (less : α → α → Bool) (b : Nat) :
    ∀ (fuel : Nat) (l : List α) (j : Nat), (shiftRightGo less b fuel l j).Perm l
  | 0, l, _ => List.Perm.refl l
  | fuel + 1, l, j => by
    rw [shiftRightGo]
    split
    · split
      · exact List.Perm.refl l
      · exact (shiftRightGo_perm less b fuel _ _).trans (lswap_perm l _ _)
    · exact List.Perm.refl l

theorem pisLoop_perm [Inhabited α] (less : α → α → Bool) (a b : Nat) :
    ∀ (steps : Nat) (l : List α) (i : Nat), (pisLoop less a b steps l i).1.Perm l
  | 0, l, _ => List.Perm.refl l
  | step + 1, l, i => by
    rw [pisLoop]
    split
    · exact List.Perm.refl l
    · split
      · exact List.Perm.refl l
      · refine List.Perm.trans (pisLoop_perm less a b step _ _) ?_
        split
        · refine List.Perm.trans (shiftRightGo_perm less b b _ _) ?_
          split
          · exact List.Perm.trans (shiftLeftGo_perm less _ _) (lswap_perm l _ _)
          · exact lswap_perm l _ _
        · split
          · exact List.Perm.trans (shiftLeftGo_perm less _ _) (lswap_perm l _ _)
          · exact lswap_perm l _ _

theorem partInsSortGo_perm [Inhabited α] (less : α → α → Bool) (a b : Nat)
    (l : List α) : (partInsSortGo less a b l).1.Perm l :=
  pisLoop_perm less a b 5 l (a + 1)

theorem breakPatternsStep_perm (l : List α) (a length modulus idx i r : Nat) :
    (breakPatternsStep l a length modulus idx i r).1.Perm l :=
  lswap_perm l _ _

theorem breakPatternsGo_perm (l : List α) (a b : Nat) :
    (breakPatternsGo l a b).Perm l := by
  rw [breakPatternsGo]
  split
  · exact (breakPatternsStep_perm _ _ _ _ _ _ _).trans
      ((breakPatternsStep_perm _ _ _ _ _ _ _).trans (breakPatternsStep_perm _ _ _ _ _ _ _))
  · exact List.Perm.refl l

theorem pdqBP_perm (l : List α) (a b limit : Nat) (wb : Bool) :
    (pdqBP l a b limit wb).1.Perm l := by
  rw [pdqBP]
  split
  · exact breakPatternsGo_perm l a b
  · exact List.Perm.refl l

theorem pdqRev_perm (l : List α) (a b : Nat) (cp : Nat × Hint) :
    (pdqRev l a b cp).1.Perm l := by
  rw [pdqRev]
  split
  · exact reverseRangeGo_perm l a b
  · exact List.Perm.refl l

theorem pdqPIS_perm [Inhabited α] (less : α → α → Bool) (a b : Nat)
    (wb wp : Bool) (hint : Hint) (l : List α) : (pdqPIS less a b wb wp hint l).1.Perm l := by
  rw [pdqPIS]
  split
  · exact partInsSortGo_perm less a b l
  · exact List.Perm.refl l

theorem pdqsortGo_perm [Inhabited α] (less : α → α → Bool) :
    ∀ (fuel : Nat) (l : List α) (a b limit : Nat) (wb wp : Bool),
      (pdqsortGo less fuel l a b limit wb wp).Perm l
  | 0, l, _, _, _, _, _ => List.Perm.refl l
  | fuel + 1, l, a, b, limit, wb, wp => by
    have stages : (pdqPIS less a b wb wp
        (pdqRev (pdqBP l a b limit wb).1 a b
          (choosePivotGo less (pdqBP l a b limit wb).1 a b)).2.2
        (pdqRev (pdqBP l a b limit wb).1 a b
          (choosePivotGo less (pdqBP l a b limit wb).1 a b)).1).1.Perm l :=
      (pdqPIS_perm less a b wb wp _ _).trans
        ((pdqRev_perm _ a b _).trans (pdqBP_perm l a b limit wb))
    rw [pdqsortGo]
    split
    · exact insertionSortGo_perm less a b l
    · split
      · exact heapSortGo_perm less a b l
      · dsimp only
        split
        · exact stages
        · split
          · exact (pdqsortGo_perm less fuel _ _ _ _ _ _).trans
              ((partitionEqualGo_perm less a b _ _).trans stages)
          · split
            · exact (pdqsortGo_perm less fuel _ _ _ _ _ _).trans
                ((pdqsortGo_perm less fuel _ _ _ _ _ _).trans
                  ((partitionGo_perm less a b _ _).trans stages))
            · exact (pdqsortGo_perm less fuel _ _ _ _ _ _).trans
                ((pdqsortGo_perm less fuel _ _ _ _ _ _).trans
                  ((partitionGo_perm less a b _ _).trans stages))

theorem sortSliceGo_perm [Inhabited α] (less : α → α → Bool) (l : List α) :
    (sortSliceGo less l).Perm l :=
  pdqsortGo_perm less (l.length + 1) l 0 l.length (bitsLen l.length) true true

/-! ## The insertion-sort regime of `sort.Slice`: the swap-based loop computes
the functional insertion `insR`, which is sorted and stable. -/

theorem lswap_append_adj :
    ∀ (p : List α) (e x : α) (r : List α),
      lswap (p ++ e :: x :: r) (p.length + 1) p.length = p ++ x :: e :: r
  | [], e, x, r => by simp [lswap, List.set]
  | c :: p', e, x, r => by
    have : (c :: p').length + 1 = (p'.length + 1) + 1 := by simp
    rw [this]
    show lswap (c :: (p' ++ e :: x :: r)) (p'.length + 1 + 1) (p'.length + 1) = _
    rw [lswap_cons_succ, lswap_append_adj p' e x r]
    rfl

theorem getD_append_len (p : List α) (x : α) (r : List α) (d : α) :
    (p ++ x :: r).getD p.length d = x := by
  induction p with
  | nil => rfl
  | cons c p' ih => simpa [List.getD] using ih

theorem getD_append_len_succ (p : List α) (e x : α) (r : List α) (d : α) :
    (p ++ e :: x :: r).getD (p.length + 1) d = x := by
  have h1 : p ++ e :: x :: r = (p ++ [e]) ++ x :: r := by simp
  have h2 : p.length + 1 = (p ++ [e]).length := by simp
  rw [h1, h2, getD_append_len]

theorem msgLess_iff (m1 m2 : Message) :
    msgLess m1 m2 = true ↔ m1.Timestamp < m2.Timestamp := by
  simp [msgLess]

theorem msgLess_false_iff (m1 m2 : Message) :
    msgLess m1 m2 = false ↔ m2.Timestamp ≤ m1.Timestamp := by
  simp [msgLess, Int.not_lt]

theorem insR_perm (x : Message) : ∀ (l : List Message), (insR x l).Perm (x :: l)
  | [] => List.Perm.refl _
  | b :: l => by
    rw [insR]
    split
    · exact List.Perm.refl _
    · exact ((insR_perm x l).cons b).trans (List.Perm.swap x b l)

theorem insR_length (x : Message) (l : List Message) :
    (insR x l).length = l.length + 1 :=
  (insR_perm x l).length_eq

theorem insR_mem {y x : Message} {l : List Message} :
    y ∈ insR x l ↔ y = x ∨ y ∈ l := by
  rw [(insR_perm x l).mem_iff, List.mem_cons]

theorem tsSorted_cons {b : Message} {l : List Message} :
    TsSorted (b :: l) ↔ (∀ y ∈ l, b.Timestamp ≤ y.Timestamp) ∧ TsSorted l := by
  simp [TsSorted, List.pairwise_cons]

theorem insR_sorted (x : Message) : ∀ (l : List Message), TsSorted l → TsSorted (insR x l)
  | [], _ => by simp [insR, TsSorted]
  | b :: l, hs => by
    rw [insR]
    rcases tsSorted_cons.1 hs with ⟨hb, hl⟩
    split
    next hlt =>
      rw [msgLess_iff] at hlt
      refine tsSorted_cons.2 ⟨?_, hs⟩
      intro y hy
      rcases List.mem_cons.1 hy with rfl | hy
      · exact le_of_lt hlt
      · exact le_trans (le_of_lt hlt) (hb y hy)
    next hge =>
      rw [Bool.not_eq_true, msgLess_false_iff] at hge
      refine tsSorted_cons.2 ⟨?_, insR_sorted x l hl⟩
      intro y hy
      rcases insR_mem.1 hy with rfl | hy
      · exact hge
      · exact hb y hy

theorem insR_all_ge (x : Message) :
    ∀ (l : List Message), (∀ b ∈ l, msgLess x b = false) → insR x l = l ++ [x]
  | [], _ => rfl
  | b :: l, hall => by
    rw [insR, if_neg, insR_all_ge x l (fun c hc => hall c (List.mem_cons_of_mem b hc))]
    · rfl
    · simp [hall b (List.mem_cons_self b l)]

theorem insR_append_last_lt (x e : Message) (h : msgLess x e = true) :
    ∀ (p : List Message), insR x (p ++ [e]) = insR x p ++ [e]
  | [] => by simp [insR, h]
  | b :: p' => by
    rw [List.cons_append, insR, insR]
    split
    · rfl
    · rw [insR_append_last_lt x e h p']
      rfl

theorem insR_append_last_ge (x e : Message) (p : List Message)
    (hp : TsSorted (p ++ [e])) (h : msgLess x e = false) :
    insR x (p ++ [e]) = (p ++ [e]) ++ [x] := by
  apply insR_all_ge
  intro b hb
  rw [msgLess_false_iff] at h ⊢
  rcases List.mem_append.1 hb with hbp | hbe
  · have : b.Timestamp ≤ e.Timestamp := by
      have := List.pairwise_append.1 hp
      exact this.2.2 b hbp e (List.mem_singleton_self e)
    exact le_trans this h
  · rw [List.mem_singleton.1 hbe]
    exact h

theorem tsSorted_of_append_singleton {p : List Message} {e : Message}
    (hp : TsSorted (p ++ [e])) : TsSorted p :=
  List.Pairwise.sublist (List.sublist_append_left p [e]) hp

theorem bubbleIdx_insert (x : Message) :
    ∀ (p : List Message), TsSorted p →
      ∀ (r : List Message), bubbleIdx msgLess 0 (p ++ x :: r) p.length = insR x p ++ r := by
  intro p
  induction p using List.reverseRecOn with
  | nil => intro _ r; rfl
  | append_singleton p' e ih =>
    intro hps r
    have hlen : (p' ++ [e]).length = p'.length + 1 := by simp
    rw [hlen]
    have hflat : (p' ++ [e]) ++ x :: r = p' ++ e :: x :: r := by simp
    rw [hflat, bubbleIdx]
    have hget : lless msgLess (p' ++ e :: x :: r) (p'.length + 1) p'.length = msgLess x e := by
      rw [lless, getD_append_len_succ, getD_append_len]
    cases hxe : msgLess x e with
    | true =>
      rw [if_pos ⟨Nat.succ_pos _, by rw [hget, hxe]⟩, lswap_append_adj]
      have : p' ++ x :: e :: r = p' ++ x :: (e :: r) := rfl
      rw [this, ih (tsSorted_of_append_singleton hps) (e :: r),
        insR_append_last_lt x e hxe p']
      simp
    | false =>
      rw [if_neg, insR_append_last_ge x e p' hps hxe]
      · simp
      · rw [hget, hxe]; simp

theorem insSortLoop_insFun :
    ∀ (rest p : List Message), TsSorted p →
      insSortLoop msgLess 0 rest.length p.length (p ++ rest)
        = rest.foldl (fun acc y => insR y acc) p
  | [], p, _ => by simp [insSortLoop]
  | x :: rest', p, hp => by
    rw [List.length_cons, insSortLoop, bubbleIdx_insert x p hp (rest')]
    have hl : p.length + 1 = (insR x p).length := (insR_length x p).symm
    rw [hl, insSortLoop_insFun rest' (insR x p) (insR_sorted x p hp)]
    rfl

theorem insertionSortGo_eq_insFun (l : List Message) :
    insertionSortGo msgLess 0 l.length l = insFun l := by
  cases l with
  | nil => rfl
  | cons y t =>
    rw [insertionSortGo, insFun]
    have h1 : (y :: t).length - (0 + 1) = t.length := by simp
    have h2 : (y :: t) = [y] ++ t := rfl
    have h3 : (0 + 1 : Nat) = ([y] : List Message).length := rfl
    rw [h1, h2, h3, insSortLoop_insFun t [y] (by simp [TsSorted])]
    rfl

theorem foldl_insR_sorted :
    ∀ (l acc : List Message), TsSorted acc →
      TsSorted (l.foldl (fun acc y => insR y acc) acc)
  | [], acc, h => h
  | x :: l, acc, h => by
    rw [List.foldl_cons]
    exact foldl_insR_sorted l (insR x acc) (insR_sorted x acc h)

theorem insFun_sorted (l : List Message) : TsSorted (insFun l) :=
  foldl_insR_sorted l [] (by simp [TsSorted])

theorem foldl_insR_perm :
    ∀ (l acc : List Message), (l.foldl (fun acc y => insR y acc) acc).Perm (acc ++ l)
  | [], acc => by simp
  | x :: l, acc => by
    rw [List.foldl_cons]
    refine (foldl_insR_perm l (insR x acc)).trans ?_
    refine (List.Perm.append_right l ((insR_perm x acc))).trans ?_
    show (x :: (acc ++ l)).Perm (acc ++ x :: l)
    exact List.perm_middle.symm

theorem insFun_perm (l : List Message) : (insFun l).Perm l := by
  simpa using foldl_insR_perm l []

theorem insR_filter (t : Int) (x : Message) :
    ∀ (l : List Message), TsSorted l →
      (insR x l).filter (fun m => decide (m.Timestamp = t))
        = if x.Timestamp = t
          then l.filter (fun m => decide (m.Timestamp = t)) ++ [x]
          else l.filter (fun m => decide (m.Timestamp = t))
  | [], _ => by
    by_cases hxt : x.Timestamp = t <;> simp [insR, List.filter_cons, hxt]
  | b :: l, hs => by
    rcases tsSorted_cons.1 hs with ⟨hb, hl⟩
    rw [insR]
    split
    next hlt =>
      rw [msgLess_iff] at hlt
      by_cases hxt : x.Timestamp = t
      · have hnone : ∀ m ∈ b :: l, ¬ (m.Timestamp = t) := by
          intro m hm
          rcases List.mem_cons.1 hm with rfl | hm
          · omega
          · have := hb m hm
            omega
        have hfe : (b :: l).filter (fun m => decide (m.Timestamp = t)) = [] := by
          rw [List.filter_eq_nil_iff]
          intro m hm
          simpa using hnone m hm
        rw [if_pos hxt, hfe]
        simp [List.filter_cons, hxt, hfe]
      · rw [if_neg hxt]
        simp [List.filter_cons, hxt]
    next hge =>
      by_cases hxt : x.Timestamp = t <;> by_cases hbt : b.Timestamp = t <;>
        simp [List.filter_cons, hxt, hbt, insR_filter t x l hl]

theorem foldl_insR_filter (t : Int) :
    ∀ (l acc : List Message), TsSorted acc →
      (l.foldl (fun acc y => insR y acc) acc).filter (fun m => decide (m.Timestamp = t))
        = acc.filter (fun m => decide (m.Timestamp = t))
          ++ l.filter (fun m => decide (m.Timestamp = t))
  | [], acc, _ => by simp
  | x :: l, acc, h => by
    rw [List.foldl_cons, foldl_insR_filter t l (insR x acc) (insR_sorted x acc h),
      insR_filter t x acc h]
    by_cases hxt : x.Timestamp = t
    · rw [if_pos hxt]
      simp [List.filter_cons, hxt]
    · rw [if_neg hxt]
      simp [List.filter_cons, hxt]

theorem insFun_filter (t : Int) (l : List Message) :
    (insFun l).filter (fun m => decide (m.Timestamp = t))
      = l.filter (fun m => decide (m.Timestamp = t)) := by
  simpa using foldl_insR_filter t l [] (by simp [TsSorted])

/-! ## History invariants (claims C1, C5, C6) -/

theorem mapInsert_not_mem (s : List String) (k : String) (h : ¬ k ∈ s) :
    mapInsert s k = s ++ [k] := by
  rw [mapInsert, if_neg]
  simpa [List.elem_iff] using h

theorem foldl_erase_mem :
    ∀ (keys s : List String), s.Nodup → ∀ id,
      (id ∈ keys.foldl (fun s k => s.erase k) s ↔ id ∈ s ∧ ¬ id ∈ keys)
  | [], s, _, id => by simp
  | k :: keys, s, hs, id => by
    rw [List.foldl_cons, foldl_erase_mem keys (s.erase k) (hs.erase k) id,
      List.Nodup.mem_erase_iff hs]
    simp only [List.mem_cons]
    constructor
    · rintro ⟨⟨hne, hmem⟩, hnk⟩
      exact ⟨hmem, by rintro (rfl | hk) <;> [exact hne rfl; exact hnk hk]⟩
    · rintro ⟨hmem, hnot⟩
      exact ⟨⟨fun he => hnot (Or.inl he), hmem⟩, fun hk => hnot (Or.inr hk)⟩

theorem foldl_erase_nodup :
    ∀ (keys s : List String), s.Nodup → (keys.foldl (fun s k => s.erase k) s).Nodup
  | [], _, hs => hs
  | k :: keys, s, hs => by
    rw [List.foldl_cons]
    exact foldl_erase_nodup keys (s.erase k) (hs.erase k)

theorem delIDs_eq_foldl (ids : List String) (msgs : List Message) :
    ∀ (n : Nat), n ≤ msgs.length →
      delIDs ids msgs n = ((msgs.take n).map Message.ID).foldl (fun s k => s.erase k) ids
  | 0, _ => by simp [delIDs]
  | n + 1, hle => by
    have hn : n < msgs.length := by omega
    rw [delIDs, delIDs_eq_foldl ids msgs n (le_of_lt hn)]
    have htake : msgs.take (n + 1) = msgs.take n ++ [msgs.getD n default] := by
      rw [List.getD_eq_getElem msgs default hn]
      exact (List.take_concat_get' msgs n hn).symm
    rw [htake]
    simp [mapDelete]

theorem cleanup_noop (h : MessageHistory) (hle : h.messages.length ≤ h.maxMessages) :
    cleanup h = h := by
  rw [cleanup, if_pos hle]

theorem addMessage_store_eq (h : MessageHistory) (m : Message)
    (hnc : ¬ m.ID ∈ h.messageIDs) (hnhb : m.Typ ≠ MessageTypeHeartbeat) :
    AddMessage h (some m) =
      (true, cleanup { h with
        messages := sortSliceGo msgLess (h.messages ++ [m]),
        messageIDs := h.messageIDs ++ [m.ID] }) := by
  rw [AddMessage]
  rw [if_neg (by simpa [List.elem_iff] using hnc), if_neg hnhb,
    mapInsert_not_mem h.messageIDs m.ID hnc]

theorem addMessage_dup_eq (h : MessageHistory) (m : Message)
    (hc : m.ID ∈ h.messageIDs) : AddMessage h (some m) = (false, h) := by
  rw [AddMessage, if_pos (by simpa [List.elem_iff] using hc)]

theorem addMessage_hb_eq (h : MessageHistory) (m : Message)
    (hnc : ¬ m.ID ∈ h.messageIDs) (hhb : m.Typ = MessageTypeHeartbeat) :
    AddMessage h (some m) = (false, h) := by
  rw [AddMessage, if_neg (by simpa [List.elem_iff] using hnc), if_pos hhb]

theorem cleanup_wf (h : MessageHistory)
    (hiff : ∀ id, id ∈ idsOf h.messages ↔ id ∈ h.messageIDs)
    (hnd : (idsOf h.messages).Nodup) (hnds : h.messageIDs.Nodup)
    (hhb : ∀ m ∈ h.messages, m.Typ ≠ MessageTypeHeartbeat)
    (hmax : 1 ≤ h.maxMessages) : HistoryWF (cleanup h) := by
  by_cases hle : h.messages.length ≤ h.maxMessages
  · rw [cleanup_noop h hle]
    exact ⟨hiff, hnd, hnds, hle, hhb, hmax⟩
  · rw [cleanup, if_neg hle]
    have hexle : h.messages.length - h.maxMessages ≤ h.messages.length := Nat.sub_le _ _
    have hsplit : idsOf h.messages
        = idsOf (h.messages.take (h.messages.length - h.maxMessages))
          ++ idsOf (h.messages.drop (h.messages.length - h.maxMessages)) := by
      rw [idsOf, idsOf, idsOf, ← List.map_append, List.take_append_drop]
    have hnd2 := hsplit ▸ hnd
    rcases List.nodup_append.1 hnd2 with ⟨hndt, hndd, hdisj⟩
    refine ⟨?_, ?_, ?_, ?_, ?_, hmax⟩
    · intro id
      show id ∈ idsOf (h.messages.drop _) ↔ id ∈ delIDs h.messageIDs h.messages _
      rw [delIDs_eq_foldl h.messageIDs h.messages _ hexle,
        foldl_erase_mem _ _ hnds id]
      constructor
      · intro hdrop
        refine ⟨(hiff id).1 (hsplit ▸ List.mem_append_right _ hdrop), ?_⟩
        intro htake
        exact hdisj htake hdrop
      · rintro ⟨hids, hnt⟩
        have := (hiff id).2 hids
        rw [hsplit] at this
        rcases List.mem_append.1 this with ht | hd
        · exact absurd ht hnt
        · exact hd
    · exact hndd
    · show (delIDs h.messageIDs h.messages _).Nodup
      rw [delIDs_eq_foldl h.messageIDs h.messages _ hexle]
      exact foldl_erase_nodup _ _ hnds
    · simp only [List.length_drop]
      omega
    · intro m hm
      exact hhb m (List.mem_of_mem_drop hm)

theorem addMessage_wf (h : MessageHistory) (msg : Option Message)
    (hwf : HistoryWF h) : HistoryWF (AddMessage h msg).2 := by
  obtain ⟨hiff, hnd, hnds, hlen, hhb, hmax⟩ := hwf
  match msg with
  | none => exact ⟨hiff, hnd, hnds, hlen, hhb, hmax⟩
  | some m =>
    by_cases hc : m.ID ∈ h.messageIDs
    · rw [addMessage_dup_eq h m hc]
      exact ⟨hiff, hnd, hnds, hlen, hhb, hmax⟩
    · by_cases hb : m.Typ = MessageTypeHeartbeat
      · rw [addMessage_hb_eq h m hc hb]
        exact ⟨hiff, hnd, hnds, hlen, hhb, hmax⟩
      · rw [addMessage_store_eq h m hc hb]
        have hperm : (idsOf (sortSliceGo msgLess (h.messages ++ [m]))).Perm
            (idsOf h.messages ++ [m.ID]) := by
          have := (sortSliceGo_perm msgLess (h.messages ++ [m])).map Message.ID
          simpa [idsOf] using this
        have hmID : ¬ m.ID ∈ idsOf h.messages := fun hmem => hc ((hiff m.ID).1 hmem)
        refine cleanup_wf _ ?_ ?_ ?_ ?_ hmax
        · intro id
          show id ∈ idsOf (sortSliceGo msgLess (h.messages ++ [m]))
            ↔ id ∈ h.messageIDs ++ [m.ID]
          rw [hperm.mem_iff]
          simp only [List.mem_append, List.mem_singleton]
          rw [hiff id]
        · refine hperm.nodup_iff.2 ?_
          simpa [List.nodup_append, hmID] using hnd
        · have : ¬ m.ID ∈ h.messageIDs := hc
          simpa [List.nodup_append, this] using hnds
        · intro x hx
          have hx2 : x ∈ h.messages ++ [m] :=
            (sortSliceGo_perm msgLess (h.messages ++ [m])).subset hx
          rcases List.mem_append.1 hx2 with hx3 | hx3
          · exact hhb x hx3
          · rw [List.mem_singleton.1 hx3]
            exact hb

theorem reachable_wf (h : MessageHistory) (hr : ReachableHistory h) : HistoryWF h := by
  induction hr with
  | new maxMessages =>
    refine ⟨by simp [NewMessageHistory, idsOf], by simp [NewMessageHistory, idsOf],
      by simp [NewMessageHistory], by simp [NewMessageHistory], by simp [NewMessageHistory], ?_⟩
    rw [NewMessageHistory]
    simp only []
    split
    · omega
    · omega
  | add h msg _ ih => exact addMessage_wf h msg ih
  | clear h _ ih =>
    obtain ⟨_, _, _, _, _, hmax⟩ := ih
    exact ⟨by simp [Clear, idsOf], by simp [Clear, idsOf], by simp [Clear],
      by simp [Clear], by simp [Clear], hmax⟩

theorem sortSliceGo_small (l : List Message) (hl : l.length ≤ 12) :
    sortSliceGo msgLess l = insFun l := by
  rw [sortSliceGo, pdqsortGo, if_pos (show l.length - 0 ≤ 12 by omega)]
  exact insertionSortGo_eq_insFun l

/-! ## Claim theorems for the message history -/

/-- Claim C1, counterexample.  Thirteen accepted messages: the call chain
returns `true` for every one, the final stored sequence is sorted by
timestamp, but the five entries with timestamp 14 come out in the order
`i, j, k, l, h` although `h` was inserted before the others — `sort.Slice`
(Go's pdqsort) is not stable once the slice exceeds 12 elements, so the
claim's stability clause is false. -/
theorem c1_counterexample :
    (addAllAcc (NewMessageHistory 1000) cexMsgs).1 = true ∧
    TsSorted (addAllAcc (NewMessageHistory 1000) cexMsgs).2.messages ∧
    ((addAllAcc (NewMessageHistory 1000) cexMsgs).2.messages.filter
        (fun x => decide (x.Timestamp = 14))).map Message.ID = ["i", "j", "k", "l", "h"] ∧
    (cexMsgs.filter (fun x => decide (x.Timestamp = 14))).map Message.ID
      = ["h", "i", "j", "k", "l"] ∧
    ¬ StableWrtInsertion cexMsgs (addAllAcc (NewMessageHistory 1000) cexMsgs).2.messages := by
  exact ⟨by decide, by decide, by decide, by decide, by decide⟩

/-- Claim C1, amended: for every message `m` accepted by `AddMessage` on a
history holding at most 11 entries and strictly below capacity (so that
`sort.Slice` runs its stable insertion-sort path and `cleanup` drops
nothing), the stored sequence afterwards is sorted by timestamp in
non-decreasing order and, among entries with equal timestamps, order of
insertion is preserved (the stored entries with any fixed timestamp are
exactly the old ones followed by `m`).  Beyond 12 entries the sort is
pdqsort, which is not stable (see the counterexample). -/
theorem c1_addMessage_sorted_stable_small (h : MessageHistory) (m : Message)
    (hlen : h.messages.length ≤ 11) (hcap : h.messages.length < h.maxMessages)
    (hacc : (AddMessage h (some m)).1 = true) :
    TsSorted (AddMessage h (some m)).2.messages ∧
      ∀ t : Int, (AddMessage h (some m)).2.messages.filter (fun x => decide (x.Timestamp = t))
        = (h.messages ++ [m]).filter (fun x => decide (x.Timestamp = t)) := by
  by_cases hc : m.ID ∈ h.messageIDs
  · rw [addMessage_dup_eq h m hc] at hacc
    exact absurd hacc (by simp)
  · by_cases hb : m.Typ = MessageTypeHeartbeat
    · rw [addMessage_hb_eq h m hc hb] at hacc
      exact absurd hacc (by simp)
    · rw [addMessage_store_eq h m hc hb]
      have hsl : (h.messages ++ [m]).length ≤ 12 := by
        simp only [List.length_append, List.length_singleton]
        omega
      have hlen2 : (sortSliceGo msgLess (h.messages ++ [m])).length ≤ h.maxMessages := by
        rw [(sortSliceGo_perm msgLess _).length_eq]
        simp only [List.length_append, List.length_singleton]
        omega
      rw [show ((true, cleanup { h with
          messages := sortSliceGo msgLess (h.messages ++ [m]),
          messageIDs := h.messageIDs ++ [m.ID] }) :
          Bool × MessageHistory).2 = cleanup { h with
          messages := sortSliceGo msgLess (h.messages ++ [m]),
          messageIDs := h.messageIDs ++ [m.ID] } from rfl]
      rw [cleanup_noop _ hlen2]
      constructor
      · show TsSorted (sortSliceGo msgLess (h.messages ++ [m]))
        rw [sortSliceGo_small _ hsl]
        exact insFun_sorted _
      · intro t
        show (sortSliceGo msgLess (h.messages ++ [m])).filter _ = _
        rw [sortSliceGo_small _ hsl]
        exact insFun_filter t _

/-- Witness for the amended C1 at a concrete input. -/
theorem c1_witness :
    (NewMessageHistory 1000).messages.length ≤ 11 ∧
    (NewMessageHistory 1000).messages.length < (NewMessageHistory 1000).maxMessages ∧
    (AddMessage (NewMessageHistory 1000) (some (mkMsg "w" 3))).1 = true ∧
    (TsSorted (AddMessage (NewMessageHistory 1000) (some (mkMsg "w" 3))).2.messages ∧
      ∀ t : Int, (AddMessage (NewMessageHistory 1000) (some (mkMsg "w" 3))).2.messages.filter
          (fun x => decide (x.Timestamp = t))
        = ((NewMessageHistory 1000).messages ++ [mkMsg "w" 3]).filter
            (fun x => decide (x.Timestamp = t))) :=
  ⟨by decide, by decide, by decide,
    c1_addMessage_sorted_stable_small (NewMessageHistory 1000) (mkMsg "w" 3)
      (by decide) (by decide) (by decide)⟩

/-- Claim C5, counterexample.  `AddMessage` called twice with the same
heartbeat envelope stores no entry at all (the claim says exactly one is
stored): heartbeats are filtered before being recorded, so both calls return
`false` and the history stays empty. -/
theorem c5_counterexample :
    (AddMessage (AddMessage (NewMessageHistory 1000) (some hbMsg)).2 (some hbMsg)).2.messages
      = [] ∧
    ¬ (((AddMessage (AddMessage (NewMessageHistory 1000) (some hbMsg)).2
          (some hbMsg)).2.messages.filter (fun x => decide (x.ID = hbMsg.ID))).length = 1) := by
  exact ⟨by decide, by decide⟩

/-- Claim C5, amended: for every non-heartbeat message `m` whose id is not
yet known to a well-formed, below-capacity history, the first `AddMessage`
returns `true`, the second returns `false` and leaves both the stored
sequence and the id set unchanged, and exactly one stored entry bears the
id.  (For a heartbeat envelope both calls return `false` and nothing is
stored — see the counterexample.) -/
theorem c5_add_twice (h : MessageHistory) (m : Message)
    (hwf : HistoryWF h) (hfresh : ¬ m.ID ∈ h.messageIDs)
    (hb : m.Typ ≠ MessageTypeHeartbeat) (hcap : h.messages.length < h.maxMessages) :
    (AddMessage h (some m)).1 = true ∧
    (AddMessage (AddMessage h (some m)).2 (some m)).1 = false ∧
    (AddMessage (AddMessage h (some m)).2 (some m)).2 = (AddMessage h (some m)).2 ∧
    ((AddMessage h (some m)).2.messages.filter (fun x => decide (x.ID = m.ID))).length = 1 := by
  obtain ⟨hiff, hnd, hnds, hlen, hhb, hmax⟩ := hwf
  have hlen2 : (sortSliceGo msgLess (h.messages ++ [m])).length ≤ h.maxMessages := by
    rw [(sortSliceGo_perm msgLess _).length_eq]
    simp only [List.length_append, List.length_singleton]
    omega
  have hh2 : (AddMessage h (some m)).2 = { h with
      messages := sortSliceGo msgLess (h.messages ++ [m]),
      messageIDs := h.messageIDs ++ [m.ID] } := by
    rw [addMessage_store_eq h m hfresh hb]
    exact cleanup_noop _ hlen2
  have hmem2 : m.ID ∈ (AddMessage h (some m)).2.messageIDs := by
    rw [hh2]
    exact List.mem_append_right _ (List.mem_singleton_self _)
  refine ⟨?_, ?_, ?_, ?_⟩
  · rw [addMessage_store_eq h m hfresh hb]
  · rw [addMessage_dup_eq _ m hmem2]
  · rw [addMessage_dup_eq _ m hmem2]
  · rw [hh2]
    show ((sortSliceGo msgLess (h.messages ++ [m])).filter
      (fun x => decide (x.ID = m.ID))).length = 1
    rw [((sortSliceGo_perm msgLess (h.messages ++ [m])).filter _).length_eq]
    rw [List.filter_append]
    have hfm : h.messages.filter (fun x => decide (x.ID = m.ID)) = [] := by
      rw [List.filter_eq_nil_iff]
      intro x hx hxid
      apply hfresh
      apply (hiff m.ID).1
      have : x.ID = m.ID := by simpa using hxid
      rw [idsOf, List.mem_map]
      exact ⟨x, hx, this⟩
    rw [hfm]
    simp

/-- Witness for the amended C5 at a concrete input. -/
theorem c5_witness :
    ¬ (mkMsg "w" 3).ID ∈ (NewMessageHistory 1000).messageIDs ∧
    (mkMsg "w" 3).Typ ≠ MessageTypeHeartbeat ∧
    (NewMessageHistory 1000).messages.length < (NewMessageHistory 1000).maxMessages ∧
    ((AddMessage (NewMessageHistory 1000) (some (mkMsg "w" 3))).1 = true ∧
      (AddMessage (AddMessage (NewMessageHistory 1000) (some (mkMsg "w" 3))).2
        (some (mkMsg "w" 3))).1 = false ∧
      (AddMessage (AddMessage (NewMessageHistory 1000) (some (mkMsg "w" 3))).2
        (some (mkMsg "w" 3))).2 = (AddMessage (NewMessageHistory 1000) (some (mkMsg "w" 3))).2 ∧
      (((AddMessage (NewMessageHistory 1000) (some (mkMsg "w" 3))).2.messages.filter
        (fun x => decide (x.ID = (mkMsg "w" 3).ID))).length = 1)) :=
  ⟨by decide, by decide, by decide,
    c5_add_twice (NewMessageHistory 1000) (mkMsg "w" 3)
      (reachable_wf _ (ReachableHistory.new 1000)) (by decide) (by decide) (by decide)⟩

/-- Claim C6: in every reachable history state (any sequence of constructor,
add, clear, and read operations) an id occurs in the stored sequence exactly
when it is in the membership set, the sequence length never exceeds the
capacity, and no heartbeat envelope is ever stored; and whenever an insert
has pushed the sequence past capacity, `cleanup` drops the oldest excess
entries from the sequence and removes exactly their ids from the set. -/
theorem c6_history_invariants :
    (∀ h, ReachableHistory h →
      (∀ id, (∃ m ∈ h.messages, m.ID = id) ↔ id ∈ h.messageIDs) ∧
      h.messages.length ≤ h.maxMessages ∧
      (∀ m ∈ h.messages, m.Typ ≠ MessageTypeHeartbeat)) ∧
    (∀ h : MessageHistory, (idsOf h.messages).Nodup →
      (∀ id, id ∈ idsOf h.messages ↔ id ∈ h.messageIDs) →
      h.messageIDs.Nodup →
      h.maxMessages < h.messages.length →
      (cleanup h).messages = h.messages.drop (h.messages.length - h.maxMessages) ∧
      (∀ id, id ∈ (cleanup h).messageIDs ↔
        (id ∈ h.messageIDs ∧
          ¬ id ∈ idsOf (h.messages.take (h.messages.length - h.maxMessages))))) := by
  constructor
  · intro h hr
    obtain ⟨hiff, _, _, hlen, hhb, _⟩ := reachable_wf h hr
    refine ⟨?_, hlen, hhb⟩
    intro id
    rw [← hiff id, idsOf, List.mem_map]
  · intro h hnd hiff hnds hgt
    have hnle : ¬ h.messages.length ≤ h.maxMessages := by omega
    have hexle : h.messages.length - h.maxMessages ≤ h.messages.length := Nat.sub_le _ _
    constructor
    · rw [cleanup, if_neg hnle]
    · intro id
      rw [cleanup, if_neg hnle]
      show id ∈ delIDs h.messageIDs h.messages _ ↔ _
      rw [delIDs_eq_foldl h.messageIDs h.messages _ hexle, foldl_erase_mem _ _ hnds id]
      rw [idsOf]

/-- Witness for C6 at concrete inputs: a reachable two-element history, and a
concrete over-capacity state fed to `cleanup`. -/
theorem c6_witness :
    ((∀ id, (∃ m ∈ (AddMessage (NewMessageHistory 5) (some (mkMsg "a" 0))).2.messages,
        m.ID = id) ↔ id ∈ (AddMessage (NewMessageHistory 5) (some (mkMsg "a" 0))).2.messageIDs) ∧
      (AddMessage (NewMessageHistory 5) (some (mkMsg "a" 0))).2.messages.length
        ≤ (AddMessage (NewMessageHistory 5) (some (mkMsg "a" 0))).2.maxMessages ∧
      (∀ m ∈ (AddMessage (NewMessageHistory 5) (some (mkMsg "a" 0))).2.messages,
        m.Typ ≠ MessageTypeHeartbeat)) ∧
    ((cleanup ⟨[mkMsg "a" 0, mkMsg "b" 1], ["a", "b"], 1⟩).messages
        = [mkMsg "a" 0, mkMsg "b" 1].drop 1 ∧
      (∀ id, id ∈ (cleanup ⟨[mkMsg "a" 0, mkMsg "b" 1], ["a", "b"], 1⟩).messageIDs ↔
        (id ∈ ["a", "b"] ∧ ¬ id ∈ idsOf ([mkMsg "a" 0, mkMsg "b" 1].take 1)))) :=
  ⟨c6_history_invariants.1 _ (ReachableHistory.add _ _ (ReachableHistory.new 5)),
    c6_history_invariants.2 ⟨[mkMsg "a" 0, mkMsg "b" 1], ["a", "b"], 1⟩
      (by simp [idsOf, mkMsg]) (by intro id; simp [idsOf, mkMsg]) (by simp) (by decide)⟩

/-! ## Helper lemmas for the keyed-list maps -/

theorem find_map_replace (k : String) (pc : PeerConnection) (hk : pc.PeerID = k) :
    ∀ (l : List PeerConnection), (l.find? (fun c => c.PeerID = k)).isSome →
      ((l.map (fun c => if c.PeerID = pc.PeerID then pc else c)).find?
        (fun c => c.PeerID = k)) = some pc
  | [], h => by simp at h
  | c :: l, h => by
    by_cases hc : c.PeerID = k
    · rw [List.map_cons, if_pos (by rw [hc, hk]), List.find?_cons_of_pos _ (by simp [hk])]
    · rw [List.map_cons, if_neg (by rw [hk]; exact hc), List.find?_cons_of_neg _ (by simp [hc])]
      apply find_map_replace k pc hk l
      rw [List.find?_cons_of_neg _ (by simp [hc])] at h
      exact h

theorem find_append_none (k : String) (pc : PeerConnection) (hk : pc.PeerID = k) :
    ∀ (l : List PeerConnection), (l.find? (fun c => c.PeerID = k)).isSome = false →
      ((l ++ [pc]).find? (fun c => c.PeerID = k)) = some pc
  | [], _ => by simp [List.find?_cons, hk]
  | c :: l, h => by
    by_cases hc : c.PeerID = k
    · rw [List.find?_cons_of_pos _ (by simp [hc])] at h
      simp at h
    · rw [List.cons_append, List.find?_cons_of_neg _ (by simp [hc])]
      apply find_append_none k pc hk l
      rw [List.find?_cons_of_neg _ (by simp [hc])] at h
      exact h

theorem connStore_lookup_self (cm : ConnectionManager) (pc : PeerConnection) :
    connLookup (connStore cm pc) pc.PeerID = some pc := by
  rw [connStore]
  split
  next hfind =>
    show ((cm.connections.map _).find? _) = some pc
    exact find_map_replace pc.PeerID pc rfl cm.connections hfind
  next hfind =>
    show ((cm.connections ++ [pc]).find? _) = some pc
    exact find_append_none pc.PeerID pc rfl cm.connections (by simpa using hfind)

/-! ## Claim theorems C2, C3, C4 (connection manager) -/

/-- Claim C2, counterexample.  The identification line `{}` is valid JSON
with every required field empty: `FromJSON` would reject it, yet
`handleIncomingConnection` — which uses the raw `json.Unmarshal` with no
required-field validation — still creates a connection entry for it, keyed by
the empty `sender_id`.  So an ingested first line lacking `id`, `sender_id`
and `type` is not dropped. -/
theorem c2_counterexample :
    (FromJSON (some emptyFieldsMsg) = .error "message missing required ID field") ∧
    (handleIncomingConnection cmEmpty (some emptyFieldsMsg) 0 "10.0.0.2:5555").2 = true ∧
    (handleIncomingConnection cmEmpty (some emptyFieldsMsg) 0 "10.0.0.2:5555").1.connections.length = 1 ∧
    connLookup (handleIncomingConnection cmEmpty (some emptyFieldsMsg) 0 "10.0.0.2:5555").1 ""
      ≠ none := by
  refine ⟨by rfl, by decide, by decide, by decide⟩

/-- Claim C2, amended: envelopes read by the per-peer read loop are validated
by `FromJSON` — if `id`, `sender_id` or `type` is missing the envelope is
dropped and never reaches the message handler; an identification line that
fails to parse as JSON closes the socket and creates no entry; but a
parseable identification line always creates or updates a connection entry
keyed by its `sender_id`, even when its required fields are empty. -/
theorem c2_ingest_validation :
    (∀ line : Option Message, (∃ e, FromJSON line = .error e) →
      handlePeerMessagesStep line = none) ∧
    (∀ (cm : ConnectionManager) (now : Int) (addr : String),
      handleIncomingConnection cm none now addr = (cm, false)) ∧
    (∀ (cm : ConnectionManager) (msg : Message) (now : Int) (addr : String),
      (handleIncomingConnection cm (some msg) now addr).2 = true ∧
      ∃ pc, connLookup (handleIncomingConnection cm (some msg) now addr).1 msg.SenderID
          = some pc ∧ pc.State = ConnectionState.Connected) := by
  refine ⟨?_, ?_, ?_⟩
  · rintro line ⟨e, he⟩
    rw [handlePeerMessagesStep, he]
  · intro cm now addr
    rfl
  · intro cm msg now addr
    rw [handleIncomingConnection]
    cases hl : connLookup cm msg.SenderID with
    | some existing =>
      have hid : existing.PeerID = msg.SenderID := by
        have := List.find?_some hl
        simpa using this
      have hsl := connStore_lookup_self cm { existing with ConnSome := true, State := ConnectionState.Connected, LastSeen := now, Address := addr }
      exact ⟨rfl, { existing with ConnSome := true, State := ConnectionState.Connected, LastSeen := now, Address := addr }, by simpa [hid] using hsl, rfl⟩
    | none =>
      exact ⟨rfl, { PeerID := msg.SenderID, Username := msg.Username, Address := addr, ConnSome := true, State := ConnectionState.Connected, LastSeen := now, LastAttempt := 0, RetryCount := 0 }, connStore_lookup_self cm _, rfl⟩

/-- Witness for the amended C2 at concrete inputs. -/
theorem c2_witness :
    (∃ e, FromJSON (some emptyFieldsMsg) = .error e) ∧
    handlePeerMessagesStep (some emptyFieldsMsg) = none ∧
    handleIncomingConnection cmEmpty none 0 "10.0.0.2:5555" = (cmEmpty, false) :=
  ⟨⟨"message missing required ID field", by rfl⟩,
    c2_ingest_validation.1 (some emptyFieldsMsg) ⟨"message missing required ID field", by rfl⟩,
    c2_ingest_validation.2.1 cmEmpty 0 "10.0.0.2:5555"⟩

/-- Claim C3: an outbound dial only ever happens on the side whose local
peer id is lexicographically smaller than the remote's — both in
`ConnectToPeer` and in the retry loop; a side whose id is greater or equal
never dials. -/
theorem c3_tie_break_dial :
    (∀ (cm : ConnectionManager) (p : Peer) (dialOk writeOk : Bool) (now : Int),
      (ConnectToPeer cm p dialOk writeOk now).2 = true →
        goStrLt cm.localPeerID p.ID = true) ∧
    (∀ (cm : ConnectionManager) (now : Int) (c : PeerConnection),
      c ∈ retryAttempts cm now → goStrLt cm.localPeerID c.PeerID = true) := by
  constructor
  · intro cm p dialOk writeOk now h
    rw [ConnectToPeer] at h
    split at h
    · simp at h
    · split at h
      · simp at h
      · next hlt => simpa using hlt
  · intro cm now c hc
    rw [retryAttempts] at hc
    exact (List.mem_filter.1 hc).2

/-- Witness for C3 at concrete inputs: `alice_1 < bob_1` dials, and a failed
entry past its backoff is retried only because the tie-break holds. -/
theorem c3_witness :
    (ConnectToPeer cmEmpty
      { ID := "bob_1", Username := "bob", AddrIP := "127.0.0.1", AddrPort := 9002,
        LastSeen := 0, Status := .online } true true 0).2 = true ∧
    goStrLt cmEmpty.localPeerID "bob_1" = true ∧
    c4conn ∈ retryAttempts cm4 2000000000 ∧
    goStrLt cm4.localPeerID c4conn.PeerID = true :=
  ⟨by decide, c3_tie_break_dial.1 cmEmpty
      { ID := "bob_1", Username := "bob", AddrIP := "127.0.0.1", AddrPort := 9002,
        LastSeen := 0, Status := .online } true true 0 (by decide),
    by decide, c3_tie_break_dial.2 cm4 2000000000 c4conn (by decide)⟩

theorem backoffDelay_eq (rc : Nat) :
    backoffDelay rc = (min ((2 : Int) ^ rc) 64) * 1000000000 := by
  rw [backoffDelay]
  rcases le_or_lt rc 6 with h | h
  · rw [min_eq_left h]
    have h2 : (2 : Int) ^ rc ≤ 64 := by
      calc (2 : Int) ^ rc ≤ 2 ^ 6 := by
            apply pow_le_pow_right₀ (by norm_num) h
        _ = 64 := by norm_num
    rw [min_eq_left h2]
    simp [Nat.shiftLeft_eq]
  · rw [min_eq_right (by omega)]
    have h2 : (64 : Int) ≤ 2 ^ rc := by
      calc (64 : Int) = 2 ^ 6 := by norm_num
        _ ≤ 2 ^ rc := by apply pow_le_pow_right₀ (by norm_num) (by omega)
    rw [min_eq_right h2]
    simp [Nat.shiftLeft_eq]

/-- Claim C4, counterexample.  A failed entry with `retry_count = 0` and
`last_attempt = 0`, examined at `now` exactly one second later: the claim's
eligibility condition (`now − last_attempt ≥ min(2^retry_count, 64) s`, with
the tie-break satisfied) holds, yet the retry loop attempts nothing, because
the code requires `time.Since(LastAttempt) > backoffDelay` strictly. -/
theorem c4_counterexample :
    c4ClaimEligible cm4 1000000000 c4conn ∧ retryAttempts cm4 1000000000 = [] := by
  refine ⟨⟨rfl, by decide, by decide⟩, by decide⟩

/-- Claim C4, amended: the retry loop attempts reconnection exactly for the
failed entries with `now − last_attempt` strictly greater than
`min(2^retry_count, 64)` seconds whose tie-break permits this side to dial;
and `retry_count` is 0 after any successful dial (in particular after a
successful handshake). -/
theorem c4_retry_backoff :
    (∀ (cm : ConnectionManager) (now : Int),
      retryAttempts cm now = cm.connections.filter (fun c =>
        decide (c.State = ConnectionState.Failed) &&
        decide (now - c.LastAttempt > (min ((2 : Int) ^ c.RetryCount) 64) * 1000000000) &&
        goStrLt cm.localPeerID c.PeerID)) ∧
    (∀ (pc : PeerConnection) (writeOk : Bool) (now : Int),
      (attemptConnection pc true writeOk now).1.RetryCount = 0) := by
  constructor
  · intro cm now
    rw [retryAttempts, List.filter_filter]
    apply List.filter_congr
    intro c _
    rw [backoffDelay_eq]
    simp only [Bool.decide_and, Bool.and_assoc, Bool.and_comm, Bool.and_left_comm]
  · intro pc writeOk now
    cases writeOk <;> rfl

/-- Witness for the amended C4 at concrete inputs. -/
theorem c4_witness :
    retryAttempts cm4 2000000000 = cm4.connections.filter (fun c =>
      decide (c.State = ConnectionState.Failed) &&
      decide ((2000000000 : Int) - c.LastAttempt
        > (min ((2 : Int) ^ c.RetryCount) 64) * 1000000000) &&
      goStrLt cm4.localPeerID c.PeerID) ∧
    (attemptConnection c4conn true true 5).1.RetryCount = 0 :=
  ⟨c4_retry_backoff.1 cm4 2000000000, c4_retry_backoff.2 c4conn true 5⟩

/-! ## Claim theorems C7 (chat service), C8 (discovery), C9 (multicast),
C10 (registry frame effect) -/

/-- Claim C7, counterexample.  `ChangeUsername` accepts the name `"a b"`,
which contains a space: the call returns ok and mutates the username — the
source validates only emptiness and byte length, never whitespace, so the
claim that whitespace-bearing names are rejected is false. -/
theorem c7_counterexample :
    ∃ st', ChangeUsername st0 "a b" "id1" 5 = .ok st' ∧ st'.username = "a b" :=
  ⟨_, rfl, rfl⟩

/-- Claim C7, amended: `ChangeUsername` rejects exactly the empty name and
names longer than 20 bytes (returning an error and producing no new state,
so the local username is unchanged); whitespace is not validated, and on
success the username becomes the requested name. -/
theorem c7_change_username_validation :
    ∀ (st : ChatServiceState) (newUsername newID : String) (now : Int),
      ((∃ e, ChangeUsername st newUsername newID now = .error e) ↔
        (newUsername = "" ∨ newUsername.utf8ByteSize > 20)) ∧
      (∀ st', ChangeUsername st newUsername newID now = .ok st' →
        st'.username = newUsername) := by
  intro st newUsername newID now
  by_cases h1 : newUsername = ""
  · rw [ChangeUsername, if_pos h1]
    refine ⟨⟨fun _ => Or.inl h1, fun _ => ⟨"username cannot be empty", rfl⟩⟩, ?_⟩
    intro st' hst
    exact absurd hst (by simp)
  · by_cases h2 : newUsername.utf8ByteSize > 20
    · rw [ChangeUsername, if_neg h1, if_pos h2]
      refine ⟨⟨fun _ => Or.inr h2, fun _ => ⟨"username too long (max 20 characters)", rfl⟩⟩, ?_⟩
      intro st' hst
      exact absurd hst (by simp)
    · rw [ChangeUsername, if_neg h1, if_neg h2]
      constructor
      · constructor
        · rintro ⟨e, he⟩
          exact absurd he (by simp)
        · rintro (h | h)
          · exact absurd h h1
          · exact absurd h h2
      · intro st' hst
        rw [← Except.ok.inj hst]

/-- Witness for the amended C7 at concrete inputs: the empty name is
rejected, and a plain short name is accepted and installed. -/
theorem c7_witness :
    (∃ e, ChangeUsername st0 "" "i" 0 = .error e) ∧
    (∀ st', ChangeUsername st0 "bob" "i" 0 = .ok st' → st'.username = "bob") :=
  ⟨(c7_change_username_validation st0 "" "i" 0).1.2 (Or.inl rfl),
    (c7_change_username_validation st0 "bob" "i" 0).2⟩

/-- Claim C8: for every discovery envelope received from the multicast
socket, an envelope bearing the local peer id is dropped with no registry
effect; an envelope older than 30 seconds is dropped with no registry
effect; an `announce`, `ping` or `pong` envelope (from another, recent peer)
causes a registry upsert; a `leave` envelope causes removal of its peer id;
and any other type leaves the registry unchanged. -/
theorem c8_discovery_dispatch :
    ∀ (localPeerID : String) (r : PeerRegistry) (msg : DiscoveryMessage)
      (ip : String) (now : Int),
      (msg.PeerID = localPeerID → handleDiscoveryMessage localPeerID r msg ip now = r) ∧
      (now - msg.Timestamp > 30 * 1000000000 →
        handleDiscoveryMessage localPeerID r msg ip now = r) ∧
      (msg.PeerID ≠ localPeerID → now - msg.Timestamp ≤ 30 * 1000000000 →
        (msg.Typ = DMessageTypeAnnounce ∨ msg.Typ = DMessageTypePing ∨
          msg.Typ = DMessageTypePong) →
        handleDiscoveryMessage localPeerID r msg ip now = AddOrUpdatePeer r msg ip now) ∧
      (msg.PeerID ≠ localPeerID → now - msg.Timestamp ≤ 30 * 1000000000 →
        msg.Typ = DMessageTypeLeave →
        handleDiscoveryMessage localPeerID r msg ip now = RemovePeer r msg.PeerID) ∧
      (¬ (msg.Typ = DMessageTypeAnnounce ∨ msg.Typ = DMessageTypePing ∨
          msg.Typ = DMessageTypePong ∨ msg.Typ = DMessageTypeLeave) →
        handleDiscoveryMessage localPeerID r msg ip now = r) := by
  intro localPeerID r msg ip now
  refine ⟨?_, ?_, ?_, ?_, ?_⟩
  · intro h
    rw [handleDiscoveryMessage, if_pos h]
  · intro h
    rw [handleDiscoveryMessage]
    by_cases h1 : msg.PeerID = localPeerID
    · rw [if_pos h1]
    · rw [if_neg h1, if_pos]
      simp only [IsRecent, Bool.not_eq_true, decide_eq_false_iff_not, Int.not_le]
      omega
  · intro h1 h2 h3
    have hrec : ¬ (¬ IsRecent msg now (30 * 1000000000) = true) := by
      simp only [IsRecent, Bool.not_eq_true, decide_eq_false_iff_not, Int.not_le, not_lt]
      omega
    rw [handleDiscoveryMessage, if_neg h1, if_neg hrec]
    rcases h3 with h3 | h3 | h3
    · rw [if_pos (Or.inl h3)]
    · rw [if_pos (Or.inr h3)]
    · rw [if_neg (by rw [h3]; decide), if_neg (by rw [h3]; decide), if_pos h3]
  · intro h1 h2 h3
    have hrec : ¬ (¬ IsRecent msg now (30 * 1000000000) = true) := by
      simp only [IsRecent, Bool.not_eq_true, decide_eq_false_iff_not, Int.not_le, not_lt]
      omega
    rw [handleDiscoveryMessage, if_neg h1, if_neg hrec,
      if_neg (by rw [h3]; decide), if_pos h3]
  · intro h5
    rw [handleDiscoveryMessage]
    by_cases h1 : msg.PeerID = localPeerID
    · rw [if_pos h1]
    · rw [if_neg h1]
      by_cases hr : (¬ IsRecent msg now (30 * 1000000000) = true)
      · rw [if_pos hr]
      · rw [if_neg hr, if_neg (fun h => h5 (by tauto)),
          if_neg (fun h => h5 (by tauto)), if_neg (fun h => h5 (by tauto))]

/-- Witness for C8 at concrete inputs: an announce upserts, a leave
removes. -/
theorem c8_witness :
    dmsgAnn.PeerID ≠ "alice_1" ∧
    ((1000000000 : Int) - dmsgAnn.Timestamp ≤ 30 * 1000000000) ∧
    handleDiscoveryMessage "alice_1" reg1 dmsgAnn "192.168.1.7" 1000000000
      = AddOrUpdatePeer reg1 dmsgAnn "192.168.1.7" 1000000000 ∧
    handleDiscoveryMessage "alice_1" reg1 dmsgLeave "192.168.1.7" 1000000000
      = RemovePeer reg1 dmsgLeave.PeerID :=
  ⟨by decide, by decide,
    (c8_discovery_dispatch "alice_1" reg1 dmsgAnn "192.168.1.7" 1000000000).2.2.1
      (by decide) (by decide) (Or.inl rfl),
    (c8_discovery_dispatch "alice_1" reg1 dmsgLeave "192.168.1.7" 1000000000).2.2.2.1
      (by decide) (by decide) rfl⟩

/-- Claim C9: on a started transport, a discovery envelope whose compact
JSON serialization exceeds 1024 bytes makes `Send` fail with the
message-too-large error and write no UDP datagram (the transport state is
unchanged); an envelope serializing to at most 1024 bytes is written as
exactly one datagram to the group address. -/
theorem c9_send_size_gate :
    ∀ (st : MulticastState) (d : List Nat), st.connStarted = true →
      (d.length > 1024 → MulticastSend st (some d) = (st, some "message too large")) ∧
      (d.length ≤ 1024 →
        MulticastSend st (some d)
          = ({ st with sentDatagrams := st.sentDatagrams ++ [d] }, none)) := by
  intro st d hstart
  constructor
  · intro h
    rw [MulticastSend, if_neg (by simp [hstart])]
    show (if d.length > MaxMessageSize then _ else _) = _
    rw [if_pos (by simpa [MaxMessageSize] using h)]
  · intro h
    rw [MulticastSend, if_neg (by simp [hstart])]
    show (if d.length > MaxMessageSize then _ else _) = _
    rw [if_neg (by simp [MaxMessageSize]; omega)]

/-- Witness for C9 at concrete inputs: a 1025-byte payload is rejected with
no datagram written, a 3-byte payload is written as one datagram. -/
theorem c9_witness :
    mst0.connStarted = true ∧
    (List.replicate 1025 (0 : Nat)).length > 1024 ∧
    MulticastSend mst0 (some (List.replicate 1025 (0 : Nat)))
      = (mst0, some "message too large") ∧
    MulticastSend mst0 (some [1, 2, 3])
      = ({ mst0 with sentDatagrams := mst0.sentDatagrams ++ [[1, 2, 3]] }, none) :=
  ⟨rfl, by rw [List.length_replicate]; omega,
    (c9_send_size_gate mst0 (List.replicate 1025 0) rfl).1 (by rw [List.length_replicate]; omega),
    (c9_send_size_gate mst0 [1, 2, 3] rfl).2 (by simp)⟩

theorem find_map_upd (k : String) (now : Int) :
    ∀ (l : List Peer) (p : Peer), l.find? (fun q => q.ID = k) = some p →
      ((l.map (fun q => if q.ID = k then UpdateLastSeen q now else q)).find?
        (fun q => q.ID = k)) = some (UpdateLastSeen p now)
  | [], p, h => by simp at h
  | q :: l, p, h => by
    by_cases hq : q.ID = k
    · rw [List.find?_cons_of_pos _ (by simp [hq])] at h
      rw [List.map_cons, if_pos hq,
        List.find?_cons_of_pos _ (by simp [UpdateLastSeen, hq])]
      rw [Option.some.inj h]
    · rw [List.find?_cons_of_neg _ (by simp [hq])] at h
      rw [List.map_cons, if_neg hq, List.find?_cons_of_neg _ (by simp [hq])]
      exact find_map_upd k now l p h

theorem find_map_upd_other (k id : String) (now : Int) (hne : id ≠ k) :
    ∀ (l : List Peer),
      ((l.map (fun q => if q.ID = k then UpdateLastSeen q now else q)).find?
        (fun q => q.ID = id)) = l.find? (fun q => q.ID = id)
  | [] => rfl
  | q :: l => by
    by_cases hq : q.ID = k
    · have hqid : ¬ q.ID = id := by rw [hq]; exact fun h => hne h.symm
      rw [List.map_cons, if_pos hq,
        List.find?_cons_of_neg _ (by simp [UpdateLastSeen, hqid]),
        List.find?_cons_of_neg _ (by simp [hqid])]
      exact find_map_upd_other k id now hne l
    · rw [List.map_cons, if_neg hq]
      by_cases hqid : q.ID = id
      · rw [List.find?_cons_of_pos _ (by simp [hqid]),
          List.find?_cons_of_pos _ (by simp [hqid])]
      · rw [List.find?_cons_of_neg _ (by simp [hqid]),
          List.find?_cons_of_neg _ (by simp [hqid])]
        exact find_map_upd_other k id now hne l

/-- Claim C10: when an upsert arrives for a peer id already present, only
the stored record's `LastSeen` and `Status` change — its username and
address (IP and TCP port) keep their original values whatever username or
port the envelope carries — and every other registry entry is untouched. -/
theorem c10_upsert_frame :
    ∀ (r : PeerRegistry) (msg : DiscoveryMessage) (ip : String) (now : Int) (p : Peer),
      regLookup r msg.PeerID = some p →
      regLookup (AddOrUpdatePeer r msg ip now) msg.PeerID
        = some { p with LastSeen := now, Status := PeerStatus.online } ∧
      (∀ id, id ≠ msg.PeerID →
        regLookup (AddOrUpdatePeer r msg ip now) id = regLookup r id) := by
  intro r msg ip now p hp
  rw [AddOrUpdatePeer]
  rw [show regLookup r msg.PeerID = some p from hp]
  constructor
  · show ((r.peers.map _).find? _) = _
    exact find_map_upd msg.PeerID now r.peers p hp
  · intro id hne
    show ((r.peers.map _).find? _) = _
    exact find_map_upd_other msg.PeerID id now hne r.peers

/-- Witness for C10 at concrete inputs: `bob_1` re-announces with username
`robert` and port 9777, yet the stored record keeps username `bob` and
address `192.168.1.7:9002`; only `LastSeen` and `Status` move. -/
theorem c10_witness :
    regLookup reg1 dmsgAnn.PeerID = some bobPeer ∧
    dmsgAnn.Username = "robert" ∧ dmsgAnn.Port = 9777 ∧
    bobPeer.Username = "bob" ∧ bobPeer.AddrPort = 9002 ∧
    regLookup (AddOrUpdatePeer reg1 dmsgAnn "192.168.1.7" 999) dmsgAnn.PeerID
      = some { bobPeer with LastSeen := 999, Status := PeerStatus.online } :=
  ⟨by decide, by decide, by decide, by decide, by decide,
    (c10_upsert_frame reg1 dmsgAnn "192.168.1.7" 999 bobPeer (by decide)).1⟩

end P2PChat
